import Mathlib

/-!
Verification development for `vitasync.py`, an FTP save-data synchronizer.

The development shallowly embeds the program:

* the Listing Resolver (`list_directory_with_details` and its `parse_line`
  closure) as a pure function over raw listing lines;
* the local filesystem as a finite structure (`LocalFS`) with the `os` /
  `shutil` operations the script uses;
* the remote FTP server as a tree (`REntry`) with a stateful session
  (`Session`, current working directory) behind the command interface the
  script uses (`CWD`, `PWD`, `LIST`, `RETR`, `STOR`, `MKD`, `MFMT`);
* the stateful, fallible parts of the script in a state-plus-exceptions
  monad `M` in which Python exceptions carry the state at the moment they
  were raised (Python exceptions do not roll back side effects).

Machine arithmetic: all timestamps are modelled as `Int` epoch seconds.  The
script only ever compares timestamps for equality / order and copies them
around verbatim, and every timestamp it writes was produced by `mktime` or
read back from a file it set itself, so integer seconds are faithful.
-/

/-! ## Time model: `time.strptime` with format `"%b %d %H:%M"` and `time.mktime`

`time.strptime(s, "%b %d %H:%M")` matches an abbreviated month name
(case-insensitively), a day `1..31`, an hour `0..23` and a minute `0..59`,
and fills every field the format does not mention with its default; in
particular `tm_year` defaults to `1900`.  `time.mktime` converts the
resulting struct to epoch seconds by proleptic-Gregorian calendar
arithmetic (we model the UTC interpretation; the real call interprets the
struct in local time, an offset bounded by hours, which none of the
properties below are sensitive to). -/

/-- Days from 1970-01-01 to year `y`, month `m` (1..12), day `d` (1-based),
by proleptic-Gregorian arithmetic (valid for `y ≥ 1`; `d` beyond the end of
the month normalizes forward exactly as `mktime` does). -/
def days_from_civil (y m d : Nat) : Int :=
  let y' := if m ≤ 2 then y - 1 else y
  let era := y' / 400
  let yoe := y' % 400
  let mp := if 2 < m then m - 3 else m + 9
  let doy := (153 * mp + 2) / 5 + d - 1
  let doe := yoe * 365 + yoe / 4 - yoe / 100 + doy
  (era * 146097 + doe : Int) - 719468

/-- Epoch seconds of `y-m-d h:mi:00` (UTC interpretation of `time.mktime`). -/
def mktime_model (y m d h mi : Nat) : Int :=
  86400 * days_from_civil y m d + 3600 * h + 60 * mi

/-- The twelve abbreviated month names `strptime`'s `%b` accepts (C locale),
lowercased; its matching is case-insensitive. -/
def monthNames : List (List Char) :=
  [['j','a','n'], ['f','e','b'], ['m','a','r'], ['a','p','r'],
   ['m','a','y'], ['j','u','n'], ['j','u','l'], ['a','u','g'],
   ['s','e','p'], ['o','c','t'], ['n','o','v'], ['d','e','c']]

def monthIdx : List (List Char) → List Char → Nat → Option Nat
  | [], _, _ => none
  | n :: ns, s, i => if s = n then some i else monthIdx ns s (i + 1)

/-- `%b`: an abbreviated month name, case-insensitive, as month 1..12. -/
def parseMonth (s : String) : Option Nat :=
  (monthIdx monthNames (s.data.map Char.toLower) 1)

def digitsVal : List Char → Option Nat
  | [] => some 0
  | c :: cs =>
    if c.isDigit then
      (digitsVal cs).map (fun v => (c.toNat - '0'.toNat) * 10 ^ cs.length + v)
    else none

/-- A 1- or 2-digit numeric field with value in `lo..hi`, as `strptime`'s
`%d` / `%H` / `%M` accept it. -/
def parseNum2 (lo hi : Nat) (cs : List Char) : Option Nat :=
  if cs.length = 0 ∨ 2 < cs.length then none
  else match digitsVal cs with
    | some v => if lo ≤ v ∧ v ≤ hi then some v else none
    | none => none

/-- `%H:%M`: hour 0..23, a colon, minute 0..59. -/
def parseHM (s : String) : Option (Nat × Nat) :=
  match s.data.splitOn ':' with
  | [hs, ms] => do
    let h ← parseNum2 0 23 hs
    let mi ← parseNum2 0 59 ms
    some (h, mi)
  | _ => none

/-- `time.strptime(" ".join([s5, s6, s7]), "%b %d %H:%M")`, reduced to the
fields it extracts: month, day, hour, minute.  (The three tokens come from a
whitespace split, so they contain no spaces and the joined string matches
the format exactly when the three tokens match `%b`, `%d`, `%H:%M`.)
`none` models the `ValueError` the script catches. -/
def strptime_fields (s5 s6 s7 : String) : Option (Nat × Nat × Nat × Nat) := do
  let mon ← parseMonth s5
  let day ← parseNum2 1 31 s6.data
  let (h, mi) ← parseHM s7
  some (mon, day, h, mi)

/-- The timestamp `parse_line` stores for a long-enough line: the `mktime`
of the parsed struct — whose year is `strptime`'s default, 1900 — or `0`
when `strptime` raises `ValueError`. -/
def lineTimestamp (parts : List String) : Int :=
  match strptime_fields (parts.getD 5 "") (parts.getD 6 "") (parts.getD 7 "") with
  | some (mon, day, h, mi) => mktime_model 1900 mon day h mi
  | none => 0

/-! ## Python `str.split()` (split on whitespace runs, dropping empties) -/

def splitWSAux : List Char → List Char → List (List Char)
  | [], acc => if acc = [] then [] else [acc.reverse]
  | c :: rest, acc =>
    if c.isWhitespace then
      if acc = [] then splitWSAux rest [] else acc.reverse :: splitWSAux rest []
    else splitWSAux rest (c :: acc)

/-- Python `line.split()` with no argument. -/
def pySplit (line : String) : List String :=
  (splitWSAux line.data []).map String.mk

/-! ## Keyed stores

Python dicts and directory contents are modelled as association lists with
assignment semantics: `d[k] = v` replaces in place when the key exists,
otherwise appends (this also keeps dict insertion order, which is listing
order). -/

def dictSet {κ ν : Type} [DecidableEq κ] (l : List (κ × ν)) (k : κ) (v : ν) : List (κ × ν) :=
  if l.any (fun e => e.1 = k) then
    l.map (fun e => if e.1 = k then (k, v) else e)
  else l ++ [(k, v)]

def dictGet {κ ν : Type} [DecidableEq κ] (l : List (κ × ν)) (k : κ) : Option ν :=
  (l.find? (fun e => e.1 = k)).map (fun e => e.2)

/-! ## The Listing Resolver: `list_directory_with_details` -/

def setKey (items : List (String × Int)) (k : String) (v : Int) : List (String × Int) :=
  dictSet items k v

def lookupKey (items : List (String × Int)) (k : String) : Option Int :=
  dictGet items k

/-- The `parse_line` closure of `list_directory_with_details`: split the
line on whitespace; if fewer than 9 fields, do nothing; otherwise record
the last field with the parsed timestamp (`0` when parsing fails). -/
def parse_line (items : List (String × Int)) (line : String) : List (String × Int) :=
  let parts := pySplit line
  if 9 ≤ parts.length then
    let filename := parts.getLastD ""
    setKey items filename (lineTimestamp parts)
  else items

/-- `list_directory_with_details(ftp)`, as a function of the raw lines the
server's `LIST` command returns: fold `parse_line` over the lines. -/
def list_directory_with_details (lines : List String) : List (String × Int) :=
  lines.foldl parse_line []

/-! ## Local filesystem model

A finite local filesystem: an association list of regular files (absolute
path segments → content and mtime) and a list of existing directories.
Contents are opaque `Nat` tokens — the script never inspects file contents,
it only copies them wholesale. -/

/-- A filesystem path, as its list of segments. -/
abbrev FPath := List String

/-- A regular file: opaque content plus modification time. -/
structure PFile where
  content : Nat
  mtime : Int
  deriving DecidableEq, Repr

structure LocalFS where
  files : List (FPath × PFile)
  dirs : List FPath
  deriving DecidableEq, Repr

def getFile (fs : LocalFS) (p : FPath) : Option PFile :=
  dictGet fs.files p

/-- Write (create or overwrite) the regular file at `p`. -/
def setFile (fs : LocalFS) (p : FPath) (f : PFile) : LocalFS :=
  { fs with files := dictSet fs.files p f }

/-- `os.path.exists`: true for a regular file or a directory. -/
def os_path_exists (fs : LocalFS) (p : FPath) : Bool :=
  (getFile fs p).isSome || fs.dirs.contains p

/-- `os.path.isdir`. -/
def os_path_isdir (fs : LocalFS) (p : FPath) : Bool :=
  fs.dirs.contains p

/-- `os.path.getmtime`, on the paths the script calls it on (they always
exist as regular files; the default branch is never exercised there). -/
def getmtimeD (fs : LocalFS) (p : FPath) : Int :=
  match getFile fs p with
  | some f => f.mtime
  | none => 0

/-- The non-empty proper and improper prefixes of a path. -/
def pathPrefixes : FPath → List FPath
  | [] => []
  | s :: rest => [s] :: (pathPrefixes rest).map (fun q => s :: q)

/-- `os.makedirs(p, exist_ok=True)`: create `p` and every missing ancestor
directory.  (The `FileExistsError` it raises when a regular file sits at
`p` or an ancestor is not modelled; every theorem that goes through
`os_makedirs` carries hypotheses ruling that situation out, so the model
and the real call agree there.) -/
def os_makedirs (fs : LocalFS) (p : FPath) : LocalFS :=
  { fs with
    dirs := (pathPrefixes p).foldl (fun ds q => if ds.contains q then ds else ds ++ [q]) fs.dirs }

/-- `os.utime(p, (t, t))`: set the mtime of the file at `p`. -/
def os_utime (fs : LocalFS) (p : FPath) (t : Int) : LocalFS :=
  match getFile fs p with
  | some f => setFile fs p { f with mtime := t }
  | none => fs

/-- `shutil.copy2(sp, tp)`: copy content and metadata (mtime included).
The script only calls it with an existing regular source file; a missing
source (which would raise) leaves the state unchanged in the model. -/
def shutil_copy2 (fs : LocalFS) (sp tp : FPath) : LocalFS :=
  match getFile fs sp with
  | some f => setFile fs tp f
  | none => fs

/-- `shutil.rmtree(p, ignore_errors=True)`: remove the directory `p` and
everything under it; no error if it does not exist. -/
def shutil_rmtree (fs : LocalFS) (p : FPath) : LocalFS :=
  { files := fs.files.filter (fun e => ¬ p.isPrefixOf e.1),
    dirs := fs.dirs.filter (fun d => ¬ p.isPrefixOf d) }

/-- `os.listdir p`: names of the immediate children of `p` (subdirectories
first, then regular files — `os.listdir`'s order is unspecified, so the
model fixes one). -/
def os_listdir (fs : LocalFS) (p : FPath) : List String :=
  (fs.dirs.filterMap (fun d => if d.dropLast = p ∧ d ≠ [] then d.getLast? else none)
    ++
   fs.files.filterMap (fun e => if e.1.dropLast = p ∧ e.1 ≠ [] then e.1.getLast? else none))

/-- The directory roots `os.walk(source)` visits: every existing directory
under (and including) `source`, in the order the directory list stores
them.  `os.walk` of a path that does not exist (or is not a directory)
yields nothing and raises nothing. -/
def walkRoots (fs : LocalFS) (source : FPath) : List FPath :=
  fs.dirs.filter (fun d => source.isPrefixOf d)

/-- The `(name, file)` pairs of the regular files directly inside walk root
`r` (the `files` component of one `os.walk` tuple). -/
def walkFiles (fs : LocalFS) (r : FPath) : List (String × PFile) :=
  fs.files.filterMap (fun e =>
    if e.1.dropLast = r ∧ e.1 ≠ [] then e.1.getLast?.map (fun n => (n, e.2)) else none)

/-! ## The Merge Engine: `merge_directories` -/

/-- The copy decision of `merge_directories` for one file, given the
canonical counterpart: copy iff the counterpart does not exist or the
source file is strictly newer (`not os.path.exists(target_path) or
os.path.getmtime(source_path) > os.path.getmtime(target_path)`). -/
def copyCond (old : Option PFile) (src : PFile) : Bool :=
  match old with
  | none => true
  | some t => src.mtime > t.mtime

/-- The body of the inner `for file in files` loop of `merge_directories`:
decide by timestamps, then `shutil.copy2` source over target. -/
def mergeFileStep (srcRoot tgtRoot : FPath) (fs : LocalFS) (nf : String × PFile) : LocalFS :=
  let source_path := srcRoot ++ [nf.1]
  let target_path := tgtRoot ++ [nf.1]
  if ¬ os_path_exists fs target_path ∨ getmtimeD fs source_path > getmtimeD fs target_path then
    shutil_copy2 fs source_path target_path
  else fs

/-- The body of the outer `for root, _, files in os.walk(source)` loop:
compute the target root from the relative root, `os.makedirs` it, then
process the root's files.  The walk snapshot (`fs0`) supplies the roots and
their file lists; the decisions read the evolving state, exactly as the
script's second walk does (the two agree because the merge writes only
under `target`, which the theorems' prefix-freeness hypotheses keep apart
from `source`). -/
def mergeRootStep (fs0 : LocalFS) (source target : FPath) (fs : LocalFS) (r : FPath) : LocalFS :=
  let relative_root := r.drop source.length
  let target_root := target ++ relative_root
  let fs1 := os_makedirs fs target_root
  (walkFiles fs0 r).foldl (fun a nf => mergeFileStep r target_root a nf) fs1

/-- `merge_directories(source, target, progress)` — the Merge Engine.  The
progress bar is display-only and not modelled. -/
def merge_directories (source target : FPath) (fs : LocalFS) : LocalFS :=
  (walkRoots fs source).foldl (mergeRootStep fs source target) fs

/-- A sequence of Merge calls, each folding one source tree into one target
tree, run left to right. -/
def mergeSeq (calls : List (FPath × FPath)) (fs : LocalFS) : LocalFS :=
  calls.foldl (fun a c => merge_directories c.1 c.2 a) fs

/-! ## Remote server and FTP session model

The remote endpoint is a tree of entries; the session (`ftplib.FTP`) holds
the one piece of protocol state the script threads everywhere: the current
working directory.  Commands refused by the server raise
`ftplib.error_perm`, which is the exception class the script catches. -/

/-- One remote entry: a regular file (mtime, opaque content) or a directory
(mtime, children).  The mtime of either kind shows up in `LIST` output. -/
inductive REntry : Type where
  | rfile : Int → Nat → REntry
  | rdir : Int → List (String × REntry) → REntry

/-- The mtime column a `LIST` line shows for an entry. -/
def REntry.listedMtime : REntry → Int
  | .rfile m _ => m
  | .rdir m _ => m

def childLookup (es : List (String × REntry)) (n : String) : Option REntry :=
  dictGet es n

def setChild (es : List (String × REntry)) (n : String) (c : REntry) : List (String × REntry) :=
  dictSet es n c

/-- Resolve a path (list of segments) from the root. -/
def findEntry : REntry → List String → Option REntry
  | e, [] => some e
  | .rfile _ _, _ :: _ => none
  | .rdir _ es, n :: rest =>
    match childLookup es n with
    | some c => findEntry c rest
    | none => none

/-- Rewrite the child list of the directory at `path`; `none` when `path`
does not name a directory or the rewrite itself refuses. -/
def modifyDir : REntry → List String → (List (String × REntry) → Option (List (String × REntry))) → Option REntry
  | .rdir m es, [], f => (f es).map (fun es' => .rdir m es')
  | .rdir m es, n :: rest, f =>
    match childLookup es n with
    | some c => (modifyDir c rest f).map (fun c' => .rdir m (setChild es n c'))
    | none => none
  | .rfile _ _, _, _ => none

/-- An FTP session: the server's tree and the session's current working
directory. -/
structure Session where
  root : REntry
  cwd : List String

/-- Split a path string on `/`, dropping empty segments (how the server
resolves a multi-segment `CWD`/`MKD` argument). -/
def splitSlash (s : String) : List String :=
  ((s.data.splitOn '/').filter (fun l => l ≠ [])).map (fun l => String.mk l)

def startsWithSlash (s : String) : Bool :=
  match s.data with
  | '/' :: _ => true
  | _ => false

/-- Resolve a `CWD`/`MKD` argument against the current directory: `".."` is
the parent, a leading `/` makes it absolute, anything else is relative. -/
def resolveArg (cwd : List String) (arg : String) : List String :=
  if arg = ".." then cwd.dropLast
  else if startsWithSlash arg then splitSlash arg
  else cwd ++ splitSlash arg

/-- `ftp.pwd()`: the server prints the current directory `/`-joined from
the root. -/
def ftp_pwd (s : Session) : String :=
  String.mk ('/' :: List.intercalate ['/'] (s.cwd.map String.data))

/-- `ftp.cwd(arg)`: move to the resolved directory, or raise `error_perm`
(550) when it does not exist or is a regular file. -/
def ftp_cwd (s : Session) (arg : String) : Except Unit Session :=
  let tgt := resolveArg s.cwd arg
  match findEntry s.root tgt with
  | some (.rdir _ _) => .ok { s with cwd := tgt }
  | _ => .error ()

/-! ## `is_directory`: the side-effecting classification probe -/

/-- `is_directory(ftp, item)`: remember `pwd()`, try to `cwd` into `item`
(directory ⇒ succeed, then `cwd` back and return `True`; regular file or
missing ⇒ the server refuses, the `except error_perm` returns `False`).
The session after the probe is returned alongside the answer. -/
def is_directory (s : Session) (item : String) : Bool × Session :=
  let current_dir := ftp_pwd s
  match ftp_cwd s item with
  | .ok s1 =>
    match ftp_cwd s1 current_dir with
    | .ok s2 => (true, s2)
    | .error _ => (false, s1)
  | .error _ => (false, s)

/-! ## The run state and the exception monad

`S` bundles the session, the local filesystem, the wall clock and the
(single, shared) progress-bar object of the active walk.  `M` is state plus
Python exceptions; an exception carries the state at raise time, because
Python exceptions do not undo side effects. -/

/-- Python exceptions the script can hit.  `outOfFuel` is a modelling
artifact of bounding the recursion depth; it is unreachable whenever the
fuel exceeds the tree depth. -/
inductive PyErr : Type where
  | errorPerm : String → PyErr
  | typeError : String → PyErr
  | attributeError : String → PyErr
  | ioError : String → PyErr
  | outOfFuel : PyErr
  deriving DecidableEq, Repr

/-- A `tqdm` progress bar: its configured total and its current count. -/
structure Pbar where
  total : Nat
  count : Nat
  deriving DecidableEq, Repr

structure S where
  sess : Session
  lfs : LocalFS
  pbar : Option Pbar
  now : Int

def M (α : Type) : Type := S → Except (PyErr × S) (α × S)

instance : Monad M where
  pure a := fun s => .ok (a, s)
  bind m f := fun s =>
    match m s with
    | .ok (a, s1) => f a s1
    | .error es => .error es

/-- Raise a Python exception (state kept). -/
def throwP {α : Type} (e : PyErr) : M α := fun s => .error (e, s)

/-- `try: body except error_perm as e: handler` — only `error_perm` is
caught; everything else propagates. -/
def catchPerm {α : Type} (body : M α) (handler : String → M α) : M α := fun s =>
  match body s with
  | .error (.errorPerm msg, s1) => handler msg s1
  | other => other

def getLfsM : M LocalFS := fun s => .ok (s.lfs, s)

def modifyLfsM (f : LocalFS → LocalFS) : M Unit := fun s =>
  .ok ((), { s with lfs := f s.lfs })

def getPbarM : M (Option Pbar) := fun s => .ok (s.pbar, s)

/-- Creating a fresh `tqdm(total=n, ...)`. -/
def newPbarM (n : Nat) : M Unit := fun s => .ok ((), { s with pbar := some ⟨n, 0⟩ })

/-- `pbar.update(1)`. -/
def pbarUpdateM : M Unit := fun s =>
  .ok ((), { s with pbar := s.pbar.map (fun p => { p with count := p.count + 1 }) })

/-- `pbar.close()` — display-only; no modelled effect. -/
def pbarCloseM : M Unit := pure ()

def ftpPwdM : M String := fun s => .ok (ftp_pwd s.sess, s)

def ftpCwdM (arg : String) : M Unit := fun s =>
  match ftp_cwd s.sess arg with
  | .ok sess1 => .ok ((), { s with sess := sess1 })
  | .error _ => .error (.errorPerm "550 Failed to change directory.", s)

def is_directoryM (item : String) : M Bool := fun s =>
  let r := is_directory s.sess item
  .ok (r.1, { s with sess := r.2 })

/-- `list_directory_with_details(ftp)` at the session level: the composite
of `retrlines("LIST", parse_line)` with the server rendering one listing
line per entry of the current directory.  Each entry's line carries its
name last and its mtime in the date columns, so the resolver's output is
the name → mtime map of the current directory (the rendering and parsing
of a single line is modelled, line-level, by `list_directory_with_details`
above; the mtimes stored here stand for the parsed values). -/
def listDetailsM : M (List (String × Int)) := fun s =>
  match findEntry s.sess.root s.sess.cwd with
  | some (.rdir _ es) => .ok (es.map (fun e => (e.1, e.2.listedMtime)), s)
  | _ => .ok ([], s)

/-- `ftp.retrbinary("RETR item", f.write)`: the file's content, or
`error_perm` when `item` is not a regular file of the current directory. -/
def ftpRetrM (item : String) : M Nat := fun s =>
  match findEntry s.sess.root (s.sess.cwd ++ [item]) with
  | some (.rfile _ c) => .ok (c, s)
  | _ => .error (.errorPerm "550 Failed to open file.", s)

/-- `ftp.storbinary("STOR item", f)`: create or overwrite `item` in the
current directory; the server stamps it with its wall clock. -/
def ftpStorM (item : String) (content : Nat) : M Unit := fun s =>
  match modifyDir s.sess.root s.sess.cwd (fun es => some (setChild es item (.rfile s.now content))) with
  | some root1 => .ok ((), { s with sess := { s.sess with root := root1 } })
  | none => .error (.errorPerm "550 Permission denied.", s)

/-- `ftp.mkd(arg)`: create the resolved directory; `error_perm` when it
already exists or its parent is no directory. -/
def ftpMkdM (arg : String) : M Unit := fun s =>
  let tgt := resolveArg s.sess.cwd arg
  match tgt.getLast? with
  | none => .error (.errorPerm "550 Create directory operation failed.", s)
  | some leaf =>
    match modifyDir s.sess.root tgt.dropLast
      (fun es => if es.any (fun e => e.1 = leaf) then none else some (es ++ [(leaf, .rdir s.now [])])) with
    | some root1 => .ok ((), { s with sess := { s.sess with root := root1 } })
    | none => .error (.errorPerm "550 Create directory operation failed.", s)

/-- `ftp.voidcmd("MFMT <timestamp> item")`: set the mtime of the file
`item` in the current directory (the script renders `local_mtime` through
`gmtime`/`strftime`, an identity round-trip on whole seconds). -/
def ftpMfmtM (item : String) (t : Int) : M Unit := fun s =>
  match modifyDir s.sess.root s.sess.cwd (fun es =>
      match childLookup es item with
      | some (.rfile _ c) => some (setChild es item (.rfile t c))
      | _ => none) with
  | some root1 => .ok ((), { s with sess := { s.sess with root := root1 } })
  | none => .error (.errorPerm "550 Could not modify file time.", s)

/-! ## `count_files`: the recursive pre-order size pass

Faithful to source: this function exists in the script but is never called
by anything. -/

def count_files (fuel : Nat) (remote_dir : String) : M Nat :=
  match fuel with
  | 0 => throwP .outOfFuel
  | fuel + 1 => do
    let ok ← catchPerm (do
        ftpCwdM remote_dir
        pure true)
      (fun _ => pure false)
    if ok then do
      let remote_items ← listDetailsM
      let total ← remote_items.foldlM (fun total it => do
        let isdir ← is_directoryM it.1
        if isdir then do
          let sub ← count_files fuel it.1
          pure (total + sub)
        else
          pure (total + 1)) 0
      ftpCwdM ".."
      pure total
    else
      pure 0

/-! ## `download_directory`: the Pull walk

Translated line by line.  Two lines of the source call into the listing
values with the wrong shape, and their Python semantics is an immediate
exception:

* `sum(1 for item in remote_items.values() if not is_directory(item))`
  calls the two-parameter function `is_directory` with a single positional
  argument (a float mtime), which raises `TypeError` before its body runs;
* in the loop, `if is_directory(details):` raises the same `TypeError`,
  and `details["mtime"]` subscripts a float, also a `TypeError`.

The translation places `throwP (.typeError ...)` exactly where Python
raises; the rest of each branch is translated anyway (it is unreachable). -/

def download_directory (fuel : Nat) (remote_dir : String) (local_dir merged_dir : FPath)
    (verbose progress : Bool) (pbarPassed : Bool) (total_files : Option Nat) : M Unit :=
  match fuel with
  | 0 => throwP .outOfFuel
  | fuel + 1 => do
    modifyLfsM (fun fs => os_makedirs fs local_dir)
    let ok ← catchPerm (do
        ftpCwdM remote_dir
        pure true)
      (fun _ => pure false)
    if ok then do
      let remote_items ← listDetailsM
      let total_files ←
        if pbarPassed = false ∧ total_files = none then
          match remote_items with
          | [] => do
            newPbarM 0
            pure (some (0 : Nat))
          | _ :: _ =>
            throwP (.typeError "is_directory() missing 1 required positional argument: item")
        else
          pure total_files
      remote_items.forM (fun it => do
        let item := it.1
        let local_path := local_dir ++ [item]
        let merged_path := merged_dir ++ [item]
        let isdir ← (throwP (.typeError "is_directory() missing 1 required positional argument: item") : M Bool)
        if isdir then
          download_directory fuel item local_path merged_path verbose progress true total_files
        else do
          let ftp_mtime ← (throwP (.typeError "float object is not subscriptable") : M Int)
          let fs ← getLfsM
          if os_path_exists fs merged_path ∧ getmtimeD fs merged_path = ftp_mtime then
            pure ()
          else do
            catchPerm (do
                let c ← ftpRetrM item
                (fun s => .ok ((), { s with lfs := setFile s.lfs local_path ⟨c, s.now⟩ }) : M Unit)
                modifyLfsM (fun fs1 => os_utime fs1 local_path ftp_mtime))
              (fun _ => pure ())
            pbarUpdateM)
      ftpCwdM ".."
      let p ← getPbarM
      let pwd ← ftpPwdM
      if p.isSome ∧ remote_dir = pwd then pbarCloseM else pure ()
    else
      pure ()

/-! ## `upload_directory`: the Push walk

Translated line by line.  `remote_files.get(item, {}).get("mtime", 0)`
calls `.get` on the value `remote_files.get(item, {})`; when `item` is
present in the listing that value is a float and Python raises
`AttributeError`; when absent it is `{}` and the expression is `0`. -/

def upload_directory (fuel : Nat) (local_dir : FPath) (remote_dir : String)
    (verbose progress : Bool) (pbarPassed : Bool) : M Unit :=
  match fuel with
  | 0 => throwP .outOfFuel
  | fuel + 1 => do
    let entered ← catchPerm (do
        ftpCwdM "/"
        ftpCwdM remote_dir
        pure true)
      (fun _ => catchPerm (do
          ftpMkdM remote_dir
          ftpCwdM remote_dir
          pure true)
        (fun _ => pure false))
    if entered then do
      let fs ← getLfsM
      let local_items := os_listdir fs local_dir
      if pbarPassed = false then newPbarM local_items.length else pure ()
      let remote_files ← listDetailsM
      local_items.forM (fun item => do
        let local_path := local_dir ++ [item]
        let fs1 ← getLfsM
        let reachedUpdate ←
          if os_path_isdir fs1 local_path then do
            upload_directory fuel local_path (remote_dir ++ "/" ++ item) verbose progress true
            pure true
          else do
            let local_mtime := getmtimeD fs1 local_path
            match lookupKey remote_files item with
            | some _ =>
              throwP (.attributeError "float object has no attribute get")
            | none => do
              let remote_mtime : Int := 0
              if remote_files.any (fun e => e.1 = item) ∧ local_mtime = remote_mtime then
                pure false
              else do
                catchPerm (do
                    let c ← (match getFile fs1 local_path with
                      | some f => pure f.content
                      | none => throwP (.ioError "No such file or directory"))
                    ftpStorM item c
                    ftpMfmtM item local_mtime)
                  (fun _ => pure ())
                pure true
        if reachedUpdate then pbarUpdateM else pure ())
      let p ← getPbarM
      let pwd ← ftpPwdM
      if p.isSome ∧ remote_dir = pwd then pbarCloseM else pure ()
    else
      pure ()

/-! ## `main`: the single-endpoint run

The hard-coded constants and the single-endpoint branch of `main`
(connect, Pull into staging, Merge, Push, then delete both staging trees;
the two staging-tree deletions are shared by both branches and sit after
the phases, with no `finally`). -/

def vita_remote_dir : String := "ux0:/user/00/savedata"

def temp_dir_1 : FPath := splitSlash "/tmp/ftp_sync_server1"

def temp_dir_2 : FPath := splitSlash "/tmp/ftp_sync_server2"

def mergeM (source target : FPath) : M Unit :=
  modifyLfsM (merge_directories source target)

def rmtreeM (p : FPath) : M Unit :=
  modifyLfsM (fun fs => shutil_rmtree fs p)

/-- The script's `main` (Lean reserves the name `main` for executable entry
points, hence the suffix). -/
def main_sync (fuel : Nat) (merged_folder : FPath) (verbose progress : Bool) : M Unit := do
  download_directory fuel vita_remote_dir temp_dir_1 merged_folder verbose progress false none
  mergeM temp_dir_1 merged_folder
  upload_directory fuel merged_folder vita_remote_dir verbose progress false
  rmtreeM temp_dir_1
  rmtreeM temp_dir_2

/-! ## Derived predicates and concrete run states used by the theorems -/

/-- Unique file keys. -/
def keysNodup (fs : LocalFS) : Prop := (fs.files.map (fun e => e.1)).Nodup

/-- A clean filesystem: file keys unique, directory list duplicate-free, and
no regular-file path is a prefix of a directory path (in particular no path
is both). -/
def FSok (fs : LocalFS) : Prop :=
  keysNodup fs ∧ fs.dirs.Nodup ∧
    ∀ d ∈ fs.dirs, ∀ e ∈ fs.files, e.1.isPrefixOf d = false

/-- The file that survives at a path after both staging copies are folded
into the canonical tree: the newer source copy, unless the canonical copy
is at least as new. -/
def mergeWinner (old : Option PFile) (sa sb : PFile) : PFile :=
  let s := if sa.mtime < sb.mtime then sb else sa
  match old with
  | none => s
  | some t => if t.mtime < s.mtime then s else t

/-- The exception a run ended with, if it ended with one. -/
def runErr {α : Type} (r : Except (PyErr × S) (α × S)) : Option PyErr :=
  match r with
  | .error (e, _) => some e
  | .ok _ => none

/-- The state at the moment an exception escaped. -/
def runErrState {α : Type} (r : Except (PyErr × S) (α × S)) : Option S :=
  match r with
  | .error (_, s) => some s
  | .ok _ => none

/-- The final state of a run that returned normally. -/
def runOkState {α : Type} (r : Except (PyErr × S) (α × S)) : Option S :=
  match r with
  | .ok (_, s) => some s
  | .error _ => none

/-- Witness state for the Merge decision rule: staging file `tmp1/y` is
newer (mtime 9) than canonical `merged/y` (mtime 3). -/
def fsC1 : LocalFS :=
  { files := [(["tmp1", "y"], ⟨22, 9⟩), (["merged", "y"], ⟨5, 3⟩)],
    dirs := [["tmp1"], ["merged"]] }

/-- Spec scenario 2: canonical `m/x` has mtime 2000, endpoint tree `a` has
1500, endpoint tree `b` has 2500. -/
def fsC3 : LocalFS :=
  { files := [(["a", "x"], ⟨1, 1500⟩), (["b", "x"], ⟨2, 2500⟩), (["m", "x"], ⟨3, 2000⟩)],
    dirs := [["a"], ["b"], ["m"]] }

/-- The canonical copy is the newest: canonical 5, source `a` 1, source
`b` 2. -/
def fsC3x : LocalFS :=
  { files := [(["a", "x"], ⟨1, 1⟩), (["b", "x"], ⟨2, 2⟩), (["m", "x"], ⟨3, 5⟩)],
    dirs := [["a"], ["b"], ["m"]] }

/-- The value a run that returned normally produced. -/
def runOkVal {α : Type} (r : Except (PyErr × S) (α × S)) : Option α :=
  match r with
  | .ok (a, _) => some a
  | .error _ => none

/-- Remote tree with one file in `save` whose listed mtime (100) matches
the canonical copy exactly — the case the spec says Pull must skip. -/
def remC2 : REntry := .rdir 0 [("save", .rdir 5 [("f.bin", .rfile 100 7)])]

/-- Run state for `remC2` with an identical canonical copy. -/
def stC2 : S :=
  { sess := ⟨remC2, []⟩,
    lfs := ⟨[(["merged", "f.bin"], ⟨7, 100⟩)], [["merged"]]⟩,
    pbar := none, now := 999 }

/-- Remote tree `save/{f1, sub/{g1, g2}}`: three files across two levels. -/
def remC8 : REntry :=
  .rdir 0 [("save", .rdir 5
    [("f1", .rfile 10 1),
     ("sub", .rdir 6 [("g1", .rfile 20 2), ("g2", .rfile 30 3)])])]

/-- Run state for `remC8` with an empty local filesystem. -/
def stC8 : S := { sess := ⟨remC8, []⟩, lfs := ⟨[], []⟩, pbar := none, now := 999 }

/-- A remote with an empty `save` directory. -/
def remEmptySave : REntry := .rdir 0 [("save", .rdir 5 [])]

/-- Push round-trip state: local `merged/f.bin` (mtime 100), empty remote
`save`, server wall clock 999. -/
def stC6b : S :=
  { sess := ⟨remEmptySave, []⟩,
    lfs := ⟨[(["merged", "f.bin"], ⟨7, 100⟩)], [["merged"]]⟩,
    pbar := none, now := 999 }

/-- Push state for the cwd-restoration claim: local subdirectory `sub`
(listed first) followed by file `f`, remote `save` empty. -/
def stC7 : S :=
  { sess := ⟨remEmptySave, []⟩,
    lfs := ⟨[(["merged", "f"], ⟨9, 60⟩)], [["merged"], ["merged", "sub"]]⟩,
    pbar := none, now := 999 }

/-- The hard-coded Vita remote tree with an empty savedata directory, and a
canonical tree holding one file: a run of `main` that completes. -/
def remC9 : REntry :=
  .rdir 0 [("ux0:", .rdir 1 [("user", .rdir 1 [("00", .rdir 1 [("savedata", .rdir 2 [])])])])]

def stC9 : S :=
  { sess := ⟨remC9, []⟩,
    lfs := ⟨[(["merged", "c"], ⟨1, 40⟩)], [["merged"]]⟩,
    pbar := none, now := 999 }

/-- Same, but the savedata directory holds one file, so Pull raises. -/
def remC9f : REntry :=
  .rdir 0 [("ux0:", .rdir 1 [("user", .rdir 1 [("00", .rdir 1
    [("savedata", .rdir 2 [("x", .rfile 11 4)])])])])]

def stC9f : S :=
  { sess := ⟨remC9f, []⟩,
    lfs := ⟨[(["merged", "c"], ⟨1, 40⟩)], [["merged"]]⟩,
    pbar := none, now := 999 }

/-- State after the Pull phase of the completing run: staging tree
created, session parked at the parent of savedata, empty progress bar. -/
def stC9dl : S :=
  { sess := ⟨remC9, ["ux0:", "user", "00"]⟩,
    lfs := ⟨[(["merged", "c"], ⟨1, 40⟩)],
            [["merged"], ["tmp"], ["tmp", "ftp_sync_server1"]]⟩,
    pbar := some ⟨0, 0⟩, now := 999 }

/-- The remote tree after the Push phase: savedata now holds `c` with the
local timestamp 40 (set by `MFMT`), not the wall clock 999. -/
def remC9up : REntry :=
  .rdir 0 [("ux0:", .rdir 1 [("user", .rdir 1 [("00", .rdir 1
    [("savedata", .rdir 2 [("c", .rfile 40 1)])])])])]

/-- State after the Push phase. -/
def stC9up : S :=
  { sess := ⟨remC9up, ["ux0:", "user", "00", "savedata"]⟩,
    lfs := ⟨[(["merged", "c"], ⟨1, 40⟩)],
            [["merged"], ["tmp"], ["tmp", "ftp_sync_server1"]]⟩,
    pbar := some ⟨1, 1⟩, now := 999 }

/-- The final state of the completing `main` run on `stC9`: staging root
deleted, canonical file untouched. -/
def c9final : S :=
  { sess := ⟨remC9up, ["ux0:", "user", "00", "savedata"]⟩,
    lfs := ⟨[(["merged", "c"], ⟨1, 40⟩)], [["merged"], ["tmp"]]⟩,
    pbar := some ⟨1, 1⟩, now := 999 }

-- SCENARIO-DEFS-MARKER

/-! ## Infrastructure lemmas: keyed stores -/

theorem aux_find_map_self {κ ν : Type} [DecidableEq κ] (k : κ) (v : ν) :
    ∀ (l : List (κ × ν)), l.any (fun e => decide (e.1 = k)) = true →
      (l.map (fun e => if e.1 = k then (k, v) else e)).find? (fun e => decide (e.1 = k)) = some (k, v)
  | [], h => by simp at h
  | e :: rest, h => by
    by_cases he : e.1 = k
    · simp [List.find?, he]
    · have h2 : rest.any (fun e => decide (e.1 = k)) = true := by
        simp only [List.any_cons, Bool.or_eq_true, decide_eq_true_eq] at h
        rcases h with h | h
        · exact absurd h he
        · exact h
      simp only [List.map_cons, if_neg he, List.find?]
      rw [show (decide (e.1 = k)) = false by simp [he]]
      exact aux_find_map_self k v rest h2

theorem aux_find_map_ne {κ ν : Type} [DecidableEq κ] (k k' : κ) (v : ν) (hne : k' ≠ k) :
    ∀ (l : List (κ × ν)),
      (l.map (fun e => if e.1 = k then (k, v) else e)).find? (fun e => decide (e.1 = k')) =
        l.find? (fun e => decide (e.1 = k'))
  | [] => rfl
  | e :: rest => by
    by_cases he : e.1 = k
    · simp only [List.map_cons, if_pos he, List.find?]
      rw [show (decide ((k, v).1 = k')) = false by simp; exact fun h => hne h.symm]
      rw [show (decide (e.1 = k')) = false by simp [he]; exact fun h => hne h.symm]
      exact aux_find_map_ne k k' v hne rest
    · simp only [List.map_cons, if_neg he, List.find?]
      cases hp : decide (e.1 = k') with
      | true => rfl
      | false => exact aux_find_map_ne k k' v hne rest

theorem aux_find_append {α : Type} (p : α → Bool) :
    ∀ (l1 l2 : List α), (l1 ++ l2).find? p =
      (match l1.find? p with | some a => some a | none => l2.find? p)
  | [], _ => rfl
  | a :: l1, l2 => by
    simp only [List.cons_append, List.find?]
    cases p a with
    | true => rfl
    | false => exact aux_find_append p l1 l2

theorem aux_any_false_find_none {α : Type} (p : α → Bool) :
    ∀ (l : List α), l.any p = false → l.find? p = none
  | [], _ => rfl
  | a :: l, h => by
    simp only [List.any_cons, Bool.or_eq_false_iff] at h
    simp only [List.find?, h.1]
    exact aux_any_false_find_none p l h.2

theorem dictGet_dictSet_self {κ ν : Type} [DecidableEq κ] (l : List (κ × ν)) (k : κ) (v : ν) :
    dictGet (dictSet l k v) k = some v := by
  unfold dictSet dictGet
  by_cases h : l.any (fun e => decide (e.1 = k)) = true
  · rw [if_pos h, aux_find_map_self k v l h]
    rfl
  · rw [if_neg h, aux_find_append]
    rw [aux_any_false_find_none _ l (by simp only [Bool.not_eq_true] at h; exact h)]
    simp [List.find?]

theorem dictGet_dictSet_ne {κ ν : Type} [DecidableEq κ] (l : List (κ × ν)) (k k' : κ) (v : ν)
    (hne : k' ≠ k) : dictGet (dictSet l k v) k' = dictGet l k' := by
  unfold dictSet dictGet
  by_cases h : l.any (fun e => decide (e.1 = k)) = true
  · rw [if_pos h, aux_find_map_ne k k' v hne l]
  · rw [if_neg h, aux_find_append]
    cases hf : l.find? (fun e => decide (e.1 = k')) with
    | some a => rfl
    | none => simp [List.find?, show (decide ((k, v).1 = k')) = false by simp; exact fun h => hne h.symm]

theorem dictSet_keys {κ ν : Type} [DecidableEq κ] (l : List (κ × ν)) (k : κ) (v : ν) :
    (dictSet l k v).map (fun e => e.1) =
      (if l.any (fun e => decide (e.1 = k)) = true then l.map (fun e => e.1)
       else l.map (fun e => e.1) ++ [k]) := by
  unfold dictSet
  by_cases h : l.any (fun e => decide (e.1 = k)) = true
  · rw [if_pos h, if_pos h, List.map_map]
    apply List.map_congr_left
    intro e _
    by_cases he : e.1 = k
    · simp [he]
    · simp [he]
  · rw [if_neg h, if_neg h, List.map_append]
    rfl

/-- Keys are preserved as a set, so key-uniqueness survives updates. -/
theorem dictSet_keys_nodup {κ ν : Type} [DecidableEq κ] (l : List (κ × ν)) (k : κ) (v : ν)
    (h : (l.map (fun e => e.1)).Nodup) : ((dictSet l k v).map (fun e => e.1)).Nodup := by
  rw [dictSet_keys]
  by_cases hc : l.any (fun e => decide (e.1 = k)) = true
  · rw [if_pos hc]; exact h
  · rw [if_neg hc]
    have hk : k ∉ l.map (fun e => e.1) := by
      intro hmem
      rcases List.mem_map.mp hmem with ⟨e, he, hek⟩
      have : l.any (fun e => decide (e.1 = k)) = true :=
        List.any_eq_true.mpr ⟨e, he, by simp [hek]⟩
      exact hc this
    exact h.append (List.nodup_singleton k) (List.disjoint_singleton.mpr hk)

/-! ## Infrastructure lemmas: path prefixes -/

theorem pre_iff : ∀ (l m : FPath), l.isPrefixOf m = true ↔ ∃ t, m = l ++ t
  | [], m => by simp [List.isPrefixOf]
  | a :: l, [] => by
    simp [List.isPrefixOf]
  | a :: l, b :: m => by
    simp only [List.isPrefixOf, Bool.and_eq_true, beq_iff_eq]
    constructor
    · rintro ⟨rfl, h⟩
      rcases (pre_iff l m).mp h with ⟨t, rfl⟩
      exact ⟨t, rfl⟩
    · rintro ⟨t, ht⟩
      rw [List.cons_append] at ht
      cases ht
      exact ⟨rfl, (pre_iff l (l ++ t)).mpr ⟨t, rfl⟩⟩

theorem pre_append (l t : FPath) : l.isPrefixOf (l ++ t) = true :=
  (pre_iff l (l ++ t)).mpr ⟨t, rfl⟩

theorem pre_refl (l : FPath) : l.isPrefixOf l = true :=
  (pre_iff l l).mpr ⟨[], (List.append_nil l).symm⟩

theorem pre_length {l m : FPath} (h : l.isPrefixOf m = true) : l.length ≤ m.length := by
  rcases (pre_iff l m).mp h with ⟨t, rfl⟩
  simp [List.length_append]

theorem pre_of_common : ∀ (l1 l2 x y : FPath), l1 ++ x = l2 ++ y →
    l1.isPrefixOf l2 = true ∨ l2.isPrefixOf l1 = true
  | [], l2, _, _, _ => Or.inl (by simp [List.isPrefixOf])
  | a :: l1, [], _, _, _ => Or.inr (by simp [List.isPrefixOf])
  | a :: l1, b :: l2, x, y, h => by
    simp only [List.cons_append, List.cons.injEq] at h
    rcases h with ⟨rfl, h2⟩
    rcases pre_of_common l1 l2 x y h2 with h | h
    · exact Or.inl (by simp [List.isPrefixOf, h])
    · exact Or.inr (by simp [List.isPrefixOf, h])

theorem pre_antisymm {l m : FPath} (h1 : l.isPrefixOf m = true) (h2 : m.isPrefixOf l = true) :
    l = m := by
  rcases (pre_iff l m).mp h1 with ⟨t, rfl⟩
  have := pre_length h2
  simp only [List.length_append] at this
  have ht : t = [] := List.eq_nil_of_length_eq_zero (by omega)
  simp [ht]

theorem pre_shorter {l1 l2 m : FPath} (h1 : l1.isPrefixOf m = true) (h2 : l2.isPrefixOf m = true)
    (hlen : l1.length ≤ l2.length) : l1.isPrefixOf l2 = true := by
  rcases (pre_iff l1 m).mp h1 with ⟨t1, he1⟩
  rcases (pre_iff l2 m).mp h2 with ⟨t2, he2⟩
  rcases pre_of_common l1 l2 t1 t2 (he1 ▸ he2 ▸ rfl) with h | h
  · exact h
  · rcases (pre_iff l2 l1).mp h with ⟨u, rfl⟩
    simp only [List.length_append] at hlen
    have hu : u = [] := List.eq_nil_of_length_eq_zero (by omega)
    simp [hu, pre_refl]

theorem pre_trans {l1 l2 l3 : FPath} (h1 : l1.isPrefixOf l2 = true)
    (h2 : l2.isPrefixOf l3 = true) : l1.isPrefixOf l3 = true := by
  rcases (pre_iff l1 l2).mp h1 with ⟨t1, rfl⟩
  rcases (pre_iff _ l3).mp h2 with ⟨t2, rfl⟩
  rw [List.append_assoc]
  exact pre_append _ _

theorem aux_concat_inj : ∀ (x y : FPath) (a b : String), x ++ [a] = y ++ [b] → x = y ∧ a = b
  | [], [], a, b, h => by simp_all
  | [], c :: y, a, b, h => by
    simp only [List.nil_append, List.cons_append, List.cons.injEq] at h
    exact absurd h.2.symm (List.append_ne_nil_of_right_ne_nil y (by simp))
  | c :: x, [], a, b, h => by
    simp only [List.nil_append, List.cons_append, List.cons.injEq] at h
    exact absurd h.2 (List.append_ne_nil_of_right_ne_nil x (by simp))
  | c :: x, d :: y, a, b, h => by
    simp only [List.cons_append, List.cons.injEq] at h
    rcases h with ⟨rfl, h2⟩
    rcases aux_concat_inj x y a b h2 with ⟨rfl, rfl⟩
    exact ⟨rfl, rfl⟩

theorem mem_pathPrefixes : ∀ (x l : FPath), x ∈ pathPrefixes l ↔ x ≠ [] ∧ x.isPrefixOf l = true
  | x, [] => by
    constructor
    · intro h; simp [pathPrefixes] at h
    · rintro ⟨hne, hpre⟩
      rcases (pre_iff x []).mp hpre with ⟨t, ht⟩
      exact absurd (List.append_eq_nil.mp ht.symm).1 hne
  | x, s :: rest => by
    simp only [pathPrefixes, List.mem_cons, List.mem_map]
    constructor
    · rintro (rfl | ⟨q, hq, rfl⟩)
      · exact ⟨by simp, by simp [List.isPrefixOf]⟩
      · rcases (mem_pathPrefixes q rest).mp hq with ⟨hne, hpre⟩
        exact ⟨by simp, by simp [List.isPrefixOf, hpre]⟩
    · rintro ⟨hne, hpre⟩
      match x, hne with
      | a :: x', _ =>
        simp only [List.isPrefixOf, Bool.and_eq_true, beq_iff_eq] at hpre
        rcases hpre with ⟨rfl, hpre⟩
        cases x' with
        | nil => exact Or.inl rfl
        | cons b x'' =>
          exact Or.inr ⟨b :: x'', (mem_pathPrefixes _ rest).mpr ⟨by simp, hpre⟩, rfl⟩

theorem pathPrefixes_self (l : FPath) (h : l ≠ []) : l ∈ pathPrefixes l :=
  (mem_pathPrefixes l l).mpr ⟨h, pre_refl l⟩

/-! ## Infrastructure lemmas: directory-set insertion -/

theorem aux_ins_mem (ds : List FPath) (q x : FPath) :
    x ∈ (if ds.contains q then ds else ds ++ [q]) ↔ x ∈ ds ∨ x = q := by
  by_cases h : ds.contains q = true
  · rw [if_pos h]
    have hq : q ∈ ds := by simpa using h
    constructor
    · exact fun hx => Or.inl hx
    · rintro (hx | rfl)
      · exact hx
      · exact hq
  · rw [if_neg h]
    simp

theorem aux_foldl_ins_mem : ∀ (L : List FPath) (ds : List FPath) (x : FPath),
    x ∈ L.foldl (fun ds q => if ds.contains q then ds else ds ++ [q]) ds ↔ x ∈ ds ∨ x ∈ L
  | [], ds, x => by simp
  | a :: L, ds, x => by
    rw [List.foldl_cons, aux_foldl_ins_mem L _ x, aux_ins_mem ds a x]
    simp only [List.mem_cons]
    tauto

theorem aux_foldl_ins_nodup : ∀ (L : List FPath) (ds : List FPath),
    ds.Nodup → (L.foldl (fun ds q => if ds.contains q then ds else ds ++ [q]) ds).Nodup
  | [], ds, h => h
  | a :: L, ds, h => by
    rw [List.foldl_cons]
    apply aux_foldl_ins_nodup L
    by_cases hc : ds.contains a = true
    · rw [if_pos hc]; exact h
    · rw [if_neg hc]
      have ha : a ∉ ds := by simpa using hc
      exact h.append (List.nodup_singleton a) (List.disjoint_singleton.mpr ha)

theorem makedirs_dirs_mem (fs : LocalFS) (d x : FPath) :
    x ∈ (os_makedirs fs d).dirs ↔ x ∈ fs.dirs ∨ x ∈ pathPrefixes d := by
  unfold os_makedirs
  exact aux_foldl_ins_mem (pathPrefixes d) fs.dirs x

theorem makedirs_files (fs : LocalFS) (d : FPath) : (os_makedirs fs d).files = fs.files := rfl

/-! ## Infrastructure lemmas: the merge engine, step by step -/


theorem getFile_setFile_self (fs : LocalFS) (p : FPath) (f : PFile) :
    getFile (setFile fs p f) p = some f := by
  unfold getFile setFile
  exact dictGet_dictSet_self fs.files p f

theorem getFile_setFile_ne (fs : LocalFS) (p q : FPath) (f : PFile) (h : q ≠ p) :
    getFile (setFile fs p f) q = getFile fs q := by
  unfold getFile setFile
  exact dictGet_dictSet_ne fs.files p q f h

theorem setFile_dirs (fs : LocalFS) (p : FPath) (f : PFile) : (setFile fs p f).dirs = fs.dirs := rfl

theorem setFile_keysNodup (fs : LocalFS) (p : FPath) (f : PFile) (h : keysNodup fs) :
    keysNodup (setFile fs p f) :=
  dictSet_keys_nodup fs.files p f h

theorem copy2_dirs (fs : LocalFS) (sp tp : FPath) : (shutil_copy2 fs sp tp).dirs = fs.dirs := by
  unfold shutil_copy2
  cases getFile fs sp with
  | some f => rfl
  | none => rfl

theorem copy2_keysNodup (fs : LocalFS) (sp tp : FPath) (h : keysNodup fs) :
    keysNodup (shutil_copy2 fs sp tp) := by
  unfold shutil_copy2
  cases getFile fs sp with
  | some f => exact setFile_keysNodup fs tp f h
  | none => exact h

theorem copy2_frame (fs : LocalFS) (sp tp q : FPath) (h : q ≠ tp) :
    getFile (shutil_copy2 fs sp tp) q = getFile fs q := by
  unfold shutil_copy2
  cases getFile fs sp with
  | some f => exact getFile_setFile_ne fs tp q f h
  | none => rfl

theorem mergeFileStep_dirs (sr tr : FPath) (fs : LocalFS) (nf : String × PFile) :
    (mergeFileStep sr tr fs nf).dirs = fs.dirs := by
  unfold mergeFileStep
  by_cases h : ¬ os_path_exists fs (tr ++ [nf.1]) = true ∨
      getmtimeD fs (sr ++ [nf.1]) > getmtimeD fs (tr ++ [nf.1])
  · rw [if_pos h]; exact copy2_dirs _ _ _
  · rw [if_neg h]

theorem mergeFileStep_keysNodup (sr tr : FPath) (fs : LocalFS) (nf : String × PFile)
    (h : keysNodup fs) : keysNodup (mergeFileStep sr tr fs nf) := by
  unfold mergeFileStep
  by_cases hc : ¬ os_path_exists fs (tr ++ [nf.1]) = true ∨
      getmtimeD fs (sr ++ [nf.1]) > getmtimeD fs (tr ++ [nf.1])
  · rw [if_pos hc]; exact copy2_keysNodup _ _ _ h
  · rw [if_neg hc]; exact h

theorem mergeFileStep_frame (sr tr : FPath) (fs : LocalFS) (nf : String × PFile) (q : FPath)
    (h : q ≠ tr ++ [nf.1]) : getFile (mergeFileStep sr tr fs nf) q = getFile fs q := by
  unfold mergeFileStep
  by_cases hc : ¬ os_path_exists fs (tr ++ [nf.1]) = true ∨
      getmtimeD fs (sr ++ [nf.1]) > getmtimeD fs (tr ++ [nf.1])
  · rw [if_pos hc]; exact copy2_frame fs _ _ q h
  · rw [if_neg hc]

theorem innerFold_dirs (sr tr : FPath) :
    ∀ (W : List (String × PFile)) (fs : LocalFS),
      (W.foldl (fun a nf => mergeFileStep sr tr a nf) fs).dirs = fs.dirs
  | [], fs => rfl
  | nf :: W, fs => by
    rw [List.foldl_cons, innerFold_dirs sr tr W _, mergeFileStep_dirs]

theorem innerFold_keysNodup (sr tr : FPath) :
    ∀ (W : List (String × PFile)) (fs : LocalFS), keysNodup fs →
      keysNodup (W.foldl (fun a nf => mergeFileStep sr tr a nf) fs)
  | [], _, h => h
  | nf :: W, fs, h => by
    rw [List.foldl_cons]
    exact innerFold_keysNodup sr tr W _ (mergeFileStep_keysNodup sr tr fs nf h)

theorem innerFold_frame (sr tr : FPath) :
    ∀ (W : List (String × PFile)) (fs : LocalFS) (q : FPath),
      (∀ nf ∈ W, tr ++ [nf.1] ≠ q) →
      getFile (W.foldl (fun a nf => mergeFileStep sr tr a nf) fs) q = getFile fs q
  | [], _, _, _ => rfl
  | nf :: W, fs, q, h => by
    rw [List.foldl_cons]
    rw [innerFold_frame sr tr W _ q (fun x hx => h x (List.mem_cons_of_mem nf hx))]
    exact mergeFileStep_frame sr tr fs nf q (fun he => h nf (List.mem_cons_self nf W) he.symm)

theorem mergeRootStep_dirs_mem (fs0 : LocalFS) (src tgt : FPath) (fs : LocalFS) (r x : FPath) :
    x ∈ (mergeRootStep fs0 src tgt fs r).dirs ↔
      x ∈ fs.dirs ∨ x ∈ pathPrefixes (tgt ++ r.drop src.length) := by
  unfold mergeRootStep
  rw [innerFold_dirs]
  exact makedirs_dirs_mem fs _ x

theorem mergeRootStep_dirs_nodup (fs0 : LocalFS) (src tgt : FPath) (fs : LocalFS) (r : FPath)
    (h : fs.dirs.Nodup) : (mergeRootStep fs0 src tgt fs r).dirs.Nodup := by
  unfold mergeRootStep
  rw [innerFold_dirs]
  exact aux_foldl_ins_nodup _ fs.dirs h

theorem mergeRootStep_keysNodup (fs0 : LocalFS) (src tgt : FPath) (fs : LocalFS) (r : FPath)
    (h : keysNodup fs) : keysNodup (mergeRootStep fs0 src tgt fs r) := by
  unfold mergeRootStep
  exact innerFold_keysNodup _ _ _ _ h

theorem mergeRootStep_frame (fs0 : LocalFS) (src tgt : FPath) (fs : LocalFS) (r q : FPath)
    (h : ∀ nf ∈ walkFiles fs0 r, (tgt ++ r.drop src.length) ++ [nf.1] ≠ q) :
    getFile (mergeRootStep fs0 src tgt fs r) q = getFile fs q := by
  unfold mergeRootStep
  rw [innerFold_frame _ _ _ _ q h]
  rw [show getFile (os_makedirs fs (tgt ++ r.drop src.length)) q = getFile fs q from rfl]

theorem outerFold_dirs_mem (fs0 : LocalFS) (src tgt : FPath) :
    ∀ (R : List FPath) (fs : LocalFS) (x : FPath),
      x ∈ (R.foldl (mergeRootStep fs0 src tgt) fs).dirs ↔
        x ∈ fs.dirs ∨ ∃ r ∈ R, x ∈ pathPrefixes (tgt ++ r.drop src.length)
  | [], fs, x => by simp
  | r :: R, fs, x => by
    rw [List.foldl_cons, outerFold_dirs_mem fs0 src tgt R _ x, mergeRootStep_dirs_mem]
    simp only [List.mem_cons]
    constructor
    · rintro ((h | h) | ⟨r', hr', hx⟩)
      · exact Or.inl h
      · exact Or.inr ⟨r, Or.inl rfl, h⟩
      · exact Or.inr ⟨r', Or.inr hr', hx⟩
    · rintro (h | ⟨r', (rfl | hr'), hx⟩)
      · exact Or.inl (Or.inl h)
      · exact Or.inl (Or.inr hx)
      · exact Or.inr ⟨r', hr', hx⟩

theorem outerFold_dirs_nodup (fs0 : LocalFS) (src tgt : FPath) :
    ∀ (R : List FPath) (fs : LocalFS), fs.dirs.Nodup →
      (R.foldl (mergeRootStep fs0 src tgt) fs).dirs.Nodup
  | [], _, h => h
  | r :: R, fs, h => by
    rw [List.foldl_cons]
    exact outerFold_dirs_nodup fs0 src tgt R _ (mergeRootStep_dirs_nodup fs0 src tgt fs r h)

theorem outerFold_keysNodup (fs0 : LocalFS) (src tgt : FPath) :
    ∀ (R : List FPath) (fs : LocalFS), keysNodup fs →
      keysNodup (R.foldl (mergeRootStep fs0 src tgt) fs)
  | [], _, h => h
  | r :: R, fs, h => by
    rw [List.foldl_cons]
    exact outerFold_keysNodup fs0 src tgt R _ (mergeRootStep_keysNodup fs0 src tgt fs r h)

theorem outerFold_frame (fs0 : LocalFS) (src tgt : FPath) :
    ∀ (R : List FPath) (fs : LocalFS) (q : FPath),
      (∀ r ∈ R, ∀ nf ∈ walkFiles fs0 r, (tgt ++ r.drop src.length) ++ [nf.1] ≠ q) →
      getFile (R.foldl (mergeRootStep fs0 src tgt) fs) q = getFile fs q
  | [], _, _, _ => rfl
  | r :: R, fs, q, h => by
    rw [List.foldl_cons]
    rw [outerFold_frame fs0 src tgt R _ q (fun r' hr' => h r' (List.mem_cons_of_mem r hr'))]
    exact mergeRootStep_frame fs0 src tgt fs r q (h r (List.mem_cons_self r R))

/-! ## Infrastructure lemmas: the walk -/

theorem mem_walkRoots (fs : LocalFS) (src r : FPath) :
    r ∈ walkRoots fs src ↔ r ∈ fs.dirs ∧ src.isPrefixOf r = true := by
  unfold walkRoots
  exact List.mem_filter

theorem aux_walkG (r : FPath) (e : FPath × PFile) (n : String) (f : PFile)
    (h : (if e.1.dropLast = r ∧ e.1 ≠ [] then e.1.getLast?.map (fun m => (m, e.2)) else none) =
      some (n, f)) : e.1 = r ++ [n] ∧ e.2 = f := by
  by_cases hc : e.1.dropLast = r ∧ e.1 ≠ []
  · rw [if_pos hc] at h
    cases hl : e.1.getLast? with
    | none => rw [hl] at h; exact absurd h (by simp)
    | some a =>
      rw [hl] at h
      simp only [Option.map_some', Option.some.injEq, Prod.mk.injEq] at h
      rcases h with ⟨rfl, rfl⟩
      refine ⟨?_, rfl⟩
      have := List.dropLast_append_getLast? a (by rw [hl]; rfl)
      rw [hc.1] at this
      exact this.symm
  · rw [if_neg hc] at h
    exact absurd h (by simp)

theorem walkFiles_mem_of_getFile (fs : LocalFS) (r : FPath) (n : String) (f : PFile)
    (h : getFile fs (r ++ [n]) = some f) : (n, f) ∈ walkFiles fs r := by
  unfold getFile dictGet at h
  cases hf : fs.files.find? (fun e => decide (e.1 = r ++ [n])) with
  | none => rw [hf] at h; exact absurd h (by simp)
  | some e =>
    rw [hf] at h
    simp only [Option.map_some', Option.some.injEq] at h
    have he1 : e.1 = r ++ [n] := by
      have := List.find?_some hf
      simpa using this
    have hmem : e ∈ fs.files := List.mem_of_find?_eq_some hf
    unfold walkFiles
    refine List.mem_filterMap.mpr ⟨e, hmem, ?_⟩
    rw [he1]
    rw [if_pos ⟨List.dropLast_concat, List.append_ne_nil_of_right_ne_nil r (by simp)⟩]
    rw [List.getLast?_concat]
    simp [h]

theorem aux_walk_nodup (r : FPath) :
    ∀ (L : List (FPath × PFile)), (L.map (fun e => e.1)).Nodup →
      ((L.filterMap (fun e =>
          if e.1.dropLast = r ∧ e.1 ≠ [] then e.1.getLast?.map (fun m => (m, e.2)) else none)).map
        (fun nf => nf.1)).Nodup
  | [], _ => by simp
  | e :: L, h => by
    rw [List.map_cons, List.nodup_cons] at h
    rcases h with ⟨h1, h2⟩
    rw [List.filterMap_cons]
    cases hg : (if e.1.dropLast = r ∧ e.1 ≠ [] then e.1.getLast?.map (fun m => (m, e.2)) else none) with
    | none => exact aux_walk_nodup r L h2
    | some nf =>
      rw [List.map_cons, List.nodup_cons]
      refine ⟨?_, aux_walk_nodup r L h2⟩
      intro hmem
      rcases List.mem_map.mp hmem with ⟨nf', hnf', heq⟩
      rcases List.mem_filterMap.mp hnf' with ⟨e', he', hge'⟩
      have hr1 : e.1 = r ++ [nf.1] ∧ e.2 = nf.2 := by
        apply aux_walkG
        rw [hg]
      have hr2 : e'.1 = r ++ [nf'.1] ∧ e'.2 = nf'.2 := by
        apply aux_walkG
        rw [hge']
      apply h1
      rw [hr1.1, ← heq, ← hr2.1]
      exact List.mem_map.mpr ⟨e', he', rfl⟩

theorem walkFiles_names_nodup (fs : LocalFS) (r : FPath) (h : keysNodup fs) :
    ((walkFiles fs r).map (fun nf => nf.1)).Nodup :=
  aux_walk_nodup r fs.files h

theorem walkFiles_key (fs : LocalFS) (r : FPath) (nf : String × PFile)
    (h : nf ∈ walkFiles fs r) : ∃ e ∈ fs.files, e.1 = r ++ [nf.1] ∧ e.2 = nf.2 := by
  unfold walkFiles at h
  rcases List.mem_filterMap.mp h with ⟨e, he, hge⟩
  have := aux_walkG r e nf.1 nf.2 (by rw [hge])
  exact ⟨e, he, this⟩

/-! ## Infrastructure lemmas: the merge engine, whole-walk level -/

theorem pre_append_cases {a b : FPath} (x : FPath) (h : a.isPrefixOf (b ++ x) = true) :
    a.isPrefixOf b = true ∨ b.isPrefixOf a = true := by
  rcases (pre_iff _ _).mp h with ⟨u, hu⟩
  rcases pre_of_common b a x u hu with h | h
  · exact Or.inr h
  · exact Or.inl h

/-- The merge writes files only under `target`. -/
theorem merge_files_frame (fs : LocalFS) (src tgt q : FPath) (h : tgt.isPrefixOf q = false) :
    getFile (merge_directories src tgt fs) q = getFile fs q := by
  unfold merge_directories
  apply outerFold_frame
  intro r _ nf _ heq
  have hpre : tgt.isPrefixOf q = true := by
    rw [← heq, List.append_assoc]
    exact pre_append _ _
  rw [h] at hpre
  exact Bool.false_ne_true hpre

theorem merge_dirs_mem (fs : LocalFS) (src tgt x : FPath) :
    x ∈ (merge_directories src tgt fs).dirs ↔
      x ∈ fs.dirs ∨ ∃ r ∈ walkRoots fs src, x ∈ pathPrefixes (tgt ++ r.drop src.length) := by
  unfold merge_directories
  exact outerFold_dirs_mem fs src tgt (walkRoots fs src) fs x

theorem merge_dirs_nodup (fs : LocalFS) (src tgt : FPath) (h : fs.dirs.Nodup) :
    (merge_directories src tgt fs).dirs.Nodup :=
  outerFold_dirs_nodup fs src tgt (walkRoots fs src) fs h

theorem merge_keysNodup (fs : LocalFS) (src tgt : FPath) (h : keysNodup fs) :
    keysNodup (merge_directories src tgt fs) :=
  outerFold_keysNodup fs src tgt (walkRoots fs src) fs h

theorem merge_dirs_grow (fs : LocalFS) (src tgt x : FPath) (h : x ∈ fs.dirs) :
    x ∈ (merge_directories src tgt fs).dirs :=
  (merge_dirs_mem fs src tgt x).mpr (Or.inl h)

theorem contains_eq_false_of_not_mem {l : List FPath} {x : FPath} (h : x ∉ l) :
    l.contains x = false := by
  rw [show l.contains x = l.elem x from rfl, List.elem_eq_mem, decide_eq_false h]

/-- Value of one merge file step at its own target path, when that path is
no directory: the copy decision of the script, as `copyCond`. -/
theorem mergeFileStep_value (sr tr : FPath) (fs : LocalFS) (n : String) (f sf : PFile)
    (hsp : getFile fs (sr ++ [n]) = some sf) (hdir : (tr ++ [n]) ∉ fs.dirs) :
    getFile (mergeFileStep sr tr fs (n, f)) (tr ++ [n]) =
      (if copyCond (getFile fs (tr ++ [n])) sf = true then some sf
       else getFile fs (tr ++ [n])) := by
  unfold mergeFileStep os_path_exists
  simp only [contains_eq_false_of_not_mem hdir]
  have hms : getmtimeD fs (sr ++ [n]) = sf.mtime := by
    unfold getmtimeD
    rw [hsp]
  split
  · rename_i hcond
    unfold shutil_copy2
    rw [hsp, getFile_setFile_self]
    cases h0 : getFile fs (tr ++ [n]) with
    | none => rw [show copyCond none sf = true from rfl, if_pos rfl]
    | some t =>
      have hmt : getmtimeD fs (tr ++ [n]) = t.mtime := by
        unfold getmtimeD
        rw [h0]
      rcases hcond with hc | hc
      · rw [h0] at hc
        simp at hc
      · rw [hms, hmt] at hc
        rw [show copyCond (some t) sf = decide (sf.mtime > t.mtime) from rfl]
        rw [if_pos (by simpa using hc)]
  · rename_i hcond
    push_neg at hcond
    cases h0 : getFile fs (tr ++ [n]) with
    | none =>
      rw [h0] at hcond
      simp at hcond
    | some t =>
      have hmt : getmtimeD fs (tr ++ [n]) = t.mtime := by
        unfold getmtimeD
        rw [h0]
      have hle : ¬ sf.mtime > t.mtime := by
        rw [hms, hmt] at hcond
        exact not_lt.mpr hcond.2
      rw [show copyCond (some t) sf = decide (sf.mtime > t.mtime) from rfl]
      rw [if_neg (by simpa using hle)]

/-- Pointwise characterization of one Merge call at one target file path:
under cleanliness hypotheses (unique keys and directories, the focal
canonical path is no directory and no `makedirs` target, source and target
trees are not nested in each other), the merged value at
`target ++ rdir ++ [n]` is the source file when `copyCond` fires and the
old value otherwise. -/
theorem merge_char (fs : LocalFS) (src tgt rdir : FPath) (n : String) (sf : PFile)
    (hkeys : keysNodup fs) (hdirs : fs.dirs.Nodup)
    (hsf : getFile fs ((src ++ rdir) ++ [n]) = some sf)
    (hsroot : (src ++ rdir) ∈ fs.dirs)
    (hnotdir : ((tgt ++ rdir) ++ [n]) ∉ fs.dirs)
    (hnomk : ∀ r ∈ fs.dirs, src.isPrefixOf r = true →
        ((tgt ++ rdir) ++ [n]) ∉ pathPrefixes (tgt ++ r.drop src.length))
    (hST : src.isPrefixOf tgt = false) (hTS : tgt.isPrefixOf src = false) :
    getFile (merge_directories src tgt fs) ((tgt ++ rdir) ++ [n]) =
      (if copyCond (getFile fs ((tgt ++ rdir) ++ [n])) sf = true then some sf
       else getFile fs ((tgt ++ rdir) ++ [n])) := by
  have hsp_nt : tgt.isPrefixOf ((src ++ rdir) ++ [n]) = false := by
    cases hb : tgt.isPrefixOf ((src ++ rdir) ++ [n]) with
    | false => rfl
    | true =>
      rw [List.append_assoc] at hb
      rcases pre_append_cases _ hb with h | h
      · rw [hTS] at h; exact absurd h (by simp)
      · rw [hST] at h; exact absurd h (by simp)
  have hwriter : ∀ r ∈ walkRoots fs src, r ≠ src ++ rdir →
      ∀ nf ∈ walkFiles fs r, (tgt ++ r.drop src.length) ++ [nf.1] ≠ (tgt ++ rdir) ++ [n] := by
    intro r hr hne nf _ heq
    rcases (mem_walkRoots fs src r).mp hr with ⟨hrd, hrpre⟩
    rcases (pre_iff src r).mp hrpre with ⟨relr, rfl⟩
    rw [List.drop_left] at heq
    rw [List.append_assoc, List.append_assoc] at heq
    rcases aux_concat_inj _ _ _ _ (List.append_cancel_left heq) with ⟨rfl, rfl⟩
    exact hne rfl
  have hwriter_sp : ∀ r ∈ walkRoots fs src,
      ∀ nf ∈ walkFiles fs r, (tgt ++ r.drop src.length) ++ [nf.1] ≠ (src ++ rdir) ++ [n] := by
    intro r _ nf _ heq
    have hp : tgt.isPrefixOf ((src ++ rdir) ++ [n]) = true := by
      rw [← heq, List.append_assoc]
      exact pre_append _ _
    rw [hsp_nt] at hp
    exact absurd hp (by simp)
  have hmk : ∀ r ∈ walkRoots fs src,
      ((tgt ++ rdir) ++ [n]) ∉ pathPrefixes (tgt ++ r.drop src.length) := by
    intro r hr
    rcases (mem_walkRoots fs src r).mp hr with ⟨hrd, hrpre⟩
    exact hnomk r hrd hrpre
  have hsrootR : (src ++ rdir) ∈ walkRoots fs src :=
    (mem_walkRoots _ _ _).mpr ⟨hsroot, pre_append _ _⟩
  have hRnodup : (walkRoots fs src).Nodup := hdirs.filter _
  rcases List.append_of_mem hsrootR with ⟨R1, R2, hsplit⟩
  have hnodup2 : (R1 ++ (src ++ rdir) :: R2).Nodup := hsplit ▸ hRnodup
  obtain ⟨hnR1, hnR2c, hdisj⟩ := List.nodup_append.mp hnodup2
  have hnotR2 : (src ++ rdir) ∉ R2 := (List.nodup_cons.mp hnR2c).1
  have hnotR1 : (src ++ rdir) ∉ R1 := fun hm => hdisj hm (List.mem_cons_self _ _)
  have hsub1 : ∀ r ∈ R1, r ∈ walkRoots fs src := by
    intro r hr; rw [hsplit]; exact List.mem_append.mpr (Or.inl hr)
  have hsub2 : ∀ r ∈ R2, r ∈ walkRoots fs src := by
    intro r hr; rw [hsplit]; exact List.mem_append.mpr (Or.inr (List.mem_cons_of_mem _ hr))
  unfold merge_directories
  rw [hsplit, List.foldl_append, List.foldl_cons]
  have f1_tp : getFile (R1.foldl (mergeRootStep fs src tgt) fs) ((tgt ++ rdir) ++ [n]) =
      getFile fs ((tgt ++ rdir) ++ [n]) := by
    apply outerFold_frame
    intro r hr nf hnf
    exact hwriter r (hsub1 r hr) (fun he => hnotR1 (he ▸ hr)) nf hnf
  have f1_sp : getFile (R1.foldl (mergeRootStep fs src tgt) fs) ((src ++ rdir) ++ [n]) =
      some sf := by
    rw [outerFold_frame fs src tgt R1 fs _ (fun r hr nf hnf => hwriter_sp r (hsub1 r hr) nf hnf)]
    exact hsf
  have f1_tp_dirs : ((tgt ++ rdir) ++ [n]) ∉ (R1.foldl (mergeRootStep fs src tgt) fs).dirs := by
    intro hmem
    rcases (outerFold_dirs_mem fs src tgt R1 fs _).mp hmem with h | ⟨r, hr, hx⟩
    · exact hnotdir h
    · exact hmk r (hsub1 r hr) hx
  rw [outerFold_frame fs src tgt R2 _ _
      (fun r hr nf hnf => hwriter r (hsub2 r hr) (fun he => hnotR2 (he ▸ hr)) nf hnf)]
  rw [show mergeRootStep fs src tgt (R1.foldl (mergeRootStep fs src tgt) fs) (src ++ rdir) =
      (walkFiles fs (src ++ rdir)).foldl
        (fun a nf => mergeFileStep (src ++ rdir) (tgt ++ rdir) a nf)
        (os_makedirs (R1.foldl (mergeRootStep fs src tgt) fs) (tgt ++ rdir)) from by
    unfold mergeRootStep
    rw [List.drop_left]]
  have f2_tp : getFile (os_makedirs (R1.foldl (mergeRootStep fs src tgt) fs) (tgt ++ rdir))
      ((tgt ++ rdir) ++ [n]) = getFile fs ((tgt ++ rdir) ++ [n]) := f1_tp
  have f2_sp : getFile (os_makedirs (R1.foldl (mergeRootStep fs src tgt) fs) (tgt ++ rdir))
      ((src ++ rdir) ++ [n]) = some sf := f1_sp
  have f2_tp_dirs : ((tgt ++ rdir) ++ [n]) ∉
      (os_makedirs (R1.foldl (mergeRootStep fs src tgt) fs) (tgt ++ rdir)).dirs := by
    intro hm
    rcases (makedirs_dirs_mem _ _ _).mp hm with h | h
    · exact f1_tp_dirs h
    · rcases (mem_pathPrefixes _ _).mp h with ⟨_, hpre⟩
      have := pre_length hpre
      simp only [List.length_append, List.length_cons, List.length_nil] at this
      omega
  have hmemW : (n, sf) ∈ walkFiles fs (src ++ rdir) :=
    walkFiles_mem_of_getFile fs _ n sf hsf
  have hWnodup := walkFiles_names_nodup fs (src ++ rdir) hkeys
  rcases List.append_of_mem hmemW with ⟨W1, W2, hWsplit⟩
  have hWnodup2 : ((W1.map (fun nf => nf.1)) ++ n :: (W2.map (fun nf => nf.1))).Nodup := by
    have := hWsplit ▸ hWnodup
    simpa [List.map_append] using this
  obtain ⟨hWn1, hWn2c, hWdisj⟩ := List.nodup_append.mp hWnodup2
  have hnW2 : n ∉ W2.map (fun nf => nf.1) := (List.nodup_cons.mp hWn2c).1
  have hnW1 : n ∉ W1.map (fun nf => nf.1) := fun hm => hWdisj hm (List.mem_cons_self _ _)
  have hW1ne : ∀ nf ∈ W1, (tgt ++ rdir) ++ [nf.1] ≠ (tgt ++ rdir) ++ [n] := by
    intro nf hnf heq
    have h1 : nf.1 = n := by
      have := List.append_cancel_left heq
      simpa using this
    exact hnW1 (h1 ▸ List.mem_map.mpr ⟨nf, hnf, rfl⟩)
  have hW2ne : ∀ nf ∈ W2, (tgt ++ rdir) ++ [nf.1] ≠ (tgt ++ rdir) ++ [n] := by
    intro nf hnf heq
    have h1 : nf.1 = n := by
      have := List.append_cancel_left heq
      simpa using this
    exact hnW2 (h1 ▸ List.mem_map.mpr ⟨nf, hnf, rfl⟩)
  have hWsp : ∀ nf : String × PFile, (tgt ++ rdir) ++ [nf.1] ≠ (src ++ rdir) ++ [n] := by
    intro nf heq
    have hp : tgt.isPrefixOf ((src ++ rdir) ++ [n]) = true := by
      rw [← heq, List.append_assoc]
      exact pre_append _ _
    rw [hsp_nt] at hp
    exact absurd hp (by simp)
  rw [hWsplit, List.foldl_append, List.foldl_cons]
  rw [innerFold_frame _ _ W2 _ _ (fun nf hnf => hW2ne nf hnf)]
  have a1_tp : getFile (W1.foldl (fun a nf => mergeFileStep (src ++ rdir) (tgt ++ rdir) a nf)
      (os_makedirs (R1.foldl (mergeRootStep fs src tgt) fs) (tgt ++ rdir)))
      ((tgt ++ rdir) ++ [n]) = getFile fs ((tgt ++ rdir) ++ [n]) := by
    rw [innerFold_frame _ _ W1 _ _ (fun nf hnf => hW1ne nf hnf)]
    exact f2_tp
  have a1_sp : getFile (W1.foldl (fun a nf => mergeFileStep (src ++ rdir) (tgt ++ rdir) a nf)
      (os_makedirs (R1.foldl (mergeRootStep fs src tgt) fs) (tgt ++ rdir)))
      ((src ++ rdir) ++ [n]) = some sf := by
    rw [innerFold_frame _ _ W1 _ _ (fun nf _ => hWsp nf)]
    exact f2_sp
  have a1_dirs : ((tgt ++ rdir) ++ [n]) ∉
      (W1.foldl (fun a nf => mergeFileStep (src ++ rdir) (tgt ++ rdir) a nf)
        (os_makedirs (R1.foldl (mergeRootStep fs src tgt) fs) (tgt ++ rdir))).dirs := by
    rw [innerFold_dirs]
    exact f2_tp_dirs
  rw [mergeFileStep_value (src ++ rdir) (tgt ++ rdir) _ n sf sf a1_sp a1_dirs]
  rw [a1_tp]

/-! ## Infrastructure lemmas: merge never regresses a timestamp -/

theorem mergeFileStep_mono (sr tr : FPath) (fs : LocalFS) (nf : String × PFile) (p : FPath)
    (t : PFile) (h : getFile fs p = some t) :
    ∃ t', getFile (mergeFileStep sr tr fs nf) p = some t' ∧ t.mtime ≤ t'.mtime := by
  by_cases hp : p = tr ++ [nf.1]
  · subst hp
    unfold mergeFileStep
    by_cases hcond : ¬ os_path_exists fs (tr ++ [nf.1]) = true ∨
        getmtimeD fs (sr ++ [nf.1]) > getmtimeD fs (tr ++ [nf.1])
    · rw [if_pos hcond]
      unfold shutil_copy2
      cases hs : getFile fs (sr ++ [nf.1]) with
      | none => exact ⟨t, h, le_refl _⟩
      | some s =>
        refine ⟨s, getFile_setFile_self _ _ _, ?_⟩
        rcases hcond with hc | hc
        · exact absurd (by unfold os_path_exists; rw [h]; simp) hc
        · have hms : getmtimeD fs (sr ++ [nf.1]) = s.mtime := by
            unfold getmtimeD; rw [hs]
          have hmt : getmtimeD fs (tr ++ [nf.1]) = t.mtime := by
            unfold getmtimeD; rw [h]
          rw [hms, hmt] at hc
          exact le_of_lt hc
    · rw [if_neg hcond]
      exact ⟨t, h, le_refl _⟩
  · rw [mergeFileStep_frame sr tr fs nf p hp]
    exact ⟨t, h, le_refl _⟩

theorem innerFold_mono (sr tr : FPath) :
    ∀ (W : List (String × PFile)) (fs : LocalFS) (p : FPath) (t : PFile),
      getFile fs p = some t →
      ∃ t', getFile (W.foldl (fun a nf => mergeFileStep sr tr a nf) fs) p = some t' ∧
        t.mtime ≤ t'.mtime
  | [], _, _, t, h => ⟨t, h, le_refl _⟩
  | nf :: W, fs, p, t, h => by
    rw [List.foldl_cons]
    rcases mergeFileStep_mono sr tr fs nf p t h with ⟨t1, h1, hle1⟩
    rcases innerFold_mono sr tr W _ p t1 h1 with ⟨t2, h2, hle2⟩
    exact ⟨t2, h2, le_trans hle1 hle2⟩

theorem mergeRootStep_mono (fs0 : LocalFS) (src tgt : FPath) (fs : LocalFS) (r p : FPath)
    (t : PFile) (h : getFile fs p = some t) :
    ∃ t', getFile (mergeRootStep fs0 src tgt fs r) p = some t' ∧ t.mtime ≤ t'.mtime := by
  unfold mergeRootStep
  exact innerFold_mono _ _ (walkFiles fs0 r) _ p t h

theorem outerFold_mono (fs0 : LocalFS) (src tgt : FPath) :
    ∀ (R : List FPath) (fs : LocalFS) (p : FPath) (t : PFile),
      getFile fs p = some t →
      ∃ t', getFile (R.foldl (mergeRootStep fs0 src tgt) fs) p = some t' ∧ t.mtime ≤ t'.mtime
  | [], _, _, t, h => ⟨t, h, le_refl _⟩
  | r :: R, fs, p, t, h => by
    rw [List.foldl_cons]
    rcases mergeRootStep_mono fs0 src tgt fs r p t h with ⟨t1, h1, hle1⟩
    rcases outerFold_mono fs0 src tgt R _ p t1 h1 with ⟨t2, h2, hle2⟩
    exact ⟨t2, h2, le_trans hle1 hle2⟩

theorem merge_mono (src tgt : FPath) (fs : LocalFS) (p : FPath) (t : PFile)
    (h : getFile fs p = some t) :
    ∃ t', getFile (merge_directories src tgt fs) p = some t' ∧ t.mtime ≤ t'.mtime :=
  outerFold_mono fs src tgt (walkRoots fs src) fs p t h

theorem mergeSeq_mono :
    ∀ (calls : List (FPath × FPath)) (fs : LocalFS) (p : FPath) (t : PFile),
      getFile fs p = some t →
      ∃ t', getFile (mergeSeq calls fs) p = some t' ∧ t.mtime ≤ t'.mtime
  | [], _, _, t, h => ⟨t, h, le_refl _⟩
  | c :: calls, fs, p, t, h => by
    unfold mergeSeq
    rw [List.foldl_cons]
    rcases merge_mono c.1 c.2 fs p t h with ⟨t1, h1, hle1⟩
    rcases mergeSeq_mono calls _ p t1 h1 with ⟨t2, h2, hle2⟩
    exact ⟨t2, h2, le_trans hle1 hle2⟩

/-! ## Infrastructure lemmas: discharging the cleanliness hypotheses -/

theorem pre_cancel_left {c x y : FPath} (h : (c ++ x).isPrefixOf (c ++ y) = true) :
    x.isPrefixOf y = true := by
  rcases (pre_iff _ _).mp h with ⟨u, hu⟩
  rw [List.append_assoc] at hu
  exact (pre_iff x y).mpr ⟨u, List.append_cancel_left hu⟩

theorem pre_append_mono {x y : FPath} (c : FPath) (h : x.isPrefixOf y = true) :
    (c ++ x).isPrefixOf (c ++ y) = true := by
  rcases (pre_iff x y).mp h with ⟨u, rfl⟩
  rw [← List.append_assoc]
  exact pre_append _ _

theorem not_pre_append {tgt a : FPath} (x : FPath) (h1 : a.isPrefixOf tgt = false)
    (h2 : tgt.isPrefixOf a = false) : tgt.isPrefixOf (a ++ x) = false := by
  cases hb : tgt.isPrefixOf (a ++ x) with
  | false => rfl
  | true =>
    rcases pre_append_cases _ hb with h | h
    · rw [h2] at h; exact absurd h (by simp)
    · rw [h1] at h; exact absurd h (by simp)

theorem getFile_mem (fs : LocalFS) (q : FPath) (f : PFile) (h : getFile fs q = some f) :
    ∃ e ∈ fs.files, e.1 = q ∧ e.2 = f := by
  unfold getFile dictGet at h
  cases hf : fs.files.find? (fun e => decide (e.1 = q)) with
  | none => rw [hf] at h; exact absurd h (by simp)
  | some e =>
    rw [hf] at h
    simp only [Option.map_some', Option.some.injEq] at h
    exact ⟨e, List.mem_of_find?_eq_some hf, by simpa using List.find?_some hf, h⟩

/-- Under `FSok`, no `makedirs` issued while merging `src` into `tgt` can
create a directory at (or above) the target path of an existing source
file. -/
theorem hnomk_of_FSok (fs : LocalFS) (src tgt rdir : FPath) (n : String) (sf : PFile)
    (hok : FSok fs) (hsf : getFile fs (src ++ rdir ++ [n]) = some sf) :
    ∀ r ∈ fs.dirs, src.isPrefixOf r = true →
      (tgt ++ rdir ++ [n]) ∉ pathPrefixes (tgt ++ r.drop src.length) := by
  intro r hrd hrpre hmem
  rcases (pre_iff src r).mp hrpre with ⟨relr, rfl⟩
  rw [List.drop_left] at hmem
  rcases (mem_pathPrefixes _ _).mp hmem with ⟨_, hpre⟩
  rw [List.append_assoc] at hpre
  have h2 : (rdir ++ [n]).isPrefixOf relr = true := pre_cancel_left hpre
  have h3 : ((src ++ rdir ++ [n]).isPrefixOf (src ++ relr)) = true := by
    rw [List.append_assoc]
    exact pre_append_mono src h2
  rcases getFile_mem fs _ sf hsf with ⟨e, he, he1, _⟩
  have h4 := hok.2.2 (src ++ relr) hrd e he
  rw [he1] at h4
  rw [h4] at h3
  exact absurd h3 (by simp)

/-! ## The claims -/

/-- C1: for every file path under the source tree of a Merge call, the
source file (content and modification time) is copied over the canonical
counterpart iff the counterpart does not exist or the source file's mtime
is strictly greater; otherwise the canonical file is left byte-for-byte
and timestamp unchanged; and across any sequence of Merge calls the
canonical timestamp at any path never decreases. -/
theorem claim_C1_merge_decision (fs : LocalFS) (src tgt rdir : FPath) (n : String) (sf : PFile)
    (hok : FSok fs)
    (hST : src.isPrefixOf tgt = false) (hTS : tgt.isPrefixOf src = false)
    (hsf : getFile fs (src ++ rdir ++ [n]) = some sf)
    (hsroot : (src ++ rdir) ∈ fs.dirs)
    (hnotdir : (tgt ++ rdir ++ [n]) ∉ fs.dirs) :
    ((getFile fs (tgt ++ rdir ++ [n]) = none ∨
        (∃ t, getFile fs (tgt ++ rdir ++ [n]) = some t ∧ t.mtime < sf.mtime)) →
      getFile (merge_directories src tgt fs) (tgt ++ rdir ++ [n]) = some sf)
    ∧ (∀ t, getFile fs (tgt ++ rdir ++ [n]) = some t → sf.mtime ≤ t.mtime →
      getFile (merge_directories src tgt fs) (tgt ++ rdir ++ [n]) = some t)
    ∧ (∀ (calls : List (FPath × FPath)) (fs' : LocalFS) (p : FPath) (t : PFile),
        getFile fs' p = some t →
        ∃ t', getFile (mergeSeq calls fs') p = some t' ∧ t.mtime ≤ t'.mtime) := by
  have hchar := merge_char fs src tgt rdir n sf hok.1 hok.2.1 hsf hsroot hnotdir
    (hnomk_of_FSok fs src tgt rdir n sf hok hsf) hST hTS
  refine ⟨?_, ?_, fun calls fs' p t h => mergeSeq_mono calls fs' p t h⟩
  · intro hcase
    rcases hcase with h0 | ⟨t, h0, hlt⟩
    · rw [hchar, h0]
      rw [show copyCond none sf = true from rfl, if_pos rfl]
    · rw [hchar, h0]
      have hcc : copyCond (some t) sf = true := by
        simp only [copyCond, gt_iff_lt, decide_eq_true_eq]
        exact hlt
      rw [hcc, if_pos rfl]
  · intro t h0 hle
    rw [hchar, h0]
    have hcc : copyCond (some t) sf = false := by
      simp only [copyCond, gt_iff_lt, decide_eq_false_iff_not]
      exact not_lt.mpr hle
    rw [hcc]
    simp

theorem claim_C1_witness :
    getFile (merge_directories ["tmp1"] ["merged"] fsC1) (["merged"] ++ [] ++ ["y"]) =
      some ⟨22, 9⟩ :=
  (claim_C1_merge_decision fsC1 ["tmp1"] ["merged"] [] "y" ⟨22, 9⟩
    (by unfold FSok keysNodup; decide) (by decide)
    (by decide) (by decide) (by decide) (by decide)).1 (Or.inr ⟨⟨5, 3⟩, by decide, by decide⟩)

/-! ## C3: order of merging two source trees -/

theorem mergeWinner_none (s1 s2 : PFile) :
    mergeWinner none s1 s2 = if s1.mtime < s2.mtime then s2 else s1 := rfl

theorem mergeWinner_some (t s1 s2 : PFile) :
    mergeWinner (some t) s1 s2 =
      if t.mtime < (if s1.mtime < s2.mtime then s2 else s1).mtime then
        (if s1.mtime < s2.mtime then s2 else s1)
      else t := rfl

theorem nested_eval (old : Option PFile) (s1 s2 : PFile) (hne : s1.mtime ≠ s2.mtime) :
    (if copyCond (if copyCond old s1 = true then some s1 else old) s2 = true then some s2
     else if copyCond old s1 = true then some s1 else old) = some (mergeWinner old s1 s2) := by
  cases old with
  | none =>
    rw [show copyCond none s1 = true from rfl, if_pos rfl, mergeWinner_none]
    rcases lt_or_gt_of_ne hne with h | h
    · rw [show copyCond (some s1) s2 = decide (s2.mtime > s1.mtime) from rfl,
        if_pos (by simpa using h), if_pos h]
    · rw [show copyCond (some s1) s2 = decide (s2.mtime > s1.mtime) from rfl,
        if_neg (by simpa using not_lt.mpr (le_of_lt h)), if_neg (not_lt.mpr (le_of_lt h))]
  | some t =>
    rw [mergeWinner_some]
    by_cases h1 : t.mtime < s1.mtime
    · have hi : (if copyCond (some t) s1 = true then some s1 else some t) = some s1 := by
        rw [show copyCond (some t) s1 = decide (s1.mtime > t.mtime) from rfl,
          if_pos (by simpa using h1)]
      rw [hi]
      by_cases h2 : s1.mtime < s2.mtime
      · rw [show copyCond (some s1) s2 = decide (s2.mtime > s1.mtime) from rfl,
          if_pos (by simpa using h2), if_pos h2, if_pos (lt_trans h1 h2)]
      · rw [show copyCond (some s1) s2 = decide (s2.mtime > s1.mtime) from rfl,
          if_neg (by simpa using h2), if_neg h2, if_pos h1]
    · have hi : (if copyCond (some t) s1 = true then some s1 else some t) = some t := by
        rw [show copyCond (some t) s1 = decide (s1.mtime > t.mtime) from rfl,
          if_neg (by simpa using h1)]
      rw [hi]
      by_cases h2 : t.mtime < s2.mtime
      · have h12 : s1.mtime < s2.mtime := lt_of_le_of_lt (not_lt.mp h1) h2
        rw [show copyCond (some t) s2 = decide (s2.mtime > t.mtime) from rfl,
          if_pos (by simpa using h2), if_pos h12, if_pos h2]
      · rw [show copyCond (some t) s2 = decide (s2.mtime > t.mtime) from rfl,
          if_neg (by simpa using h2)]
        by_cases h12 : s1.mtime < s2.mtime
        · rw [if_pos h12, if_neg h2]
        · rw [if_neg h12, if_neg h1]

theorem winner_comm (old : Option PFile) (sa sb : PFile) (hne : sa.mtime ≠ sb.mtime) :
    mergeWinner old sa sb = mergeWinner old sb sa := by
  have hs : (if sa.mtime < sb.mtime then sb else sa) = (if sb.mtime < sa.mtime then sa else sb) := by
    rcases lt_or_gt_of_ne hne with h | h
    · rw [if_pos h, if_neg (not_lt.mpr (le_of_lt h))]
    · rw [if_neg (not_lt.mpr (le_of_lt h)), if_pos h]
  cases old with
  | none => simp only [mergeWinner]; exact hs
  | some t => simp only [mergeWinner]; rw [hs]

/-- C3: with a path present in both source trees `a` and `b` with different
timestamps, `Merge(a, Merge(b, canonical))` and `Merge(b, Merge(a,
canonical))` agree at that path, and the surviving file is `mergeWinner`:
the newer source copy unless the canonical copy is at least as new. -/
theorem claim_C3_merge_commutes (fs : LocalFS) (a b tgt rdir : FPath) (n : String)
    (sa sb : PFile) (hok : FSok fs)
    (hAT : a.isPrefixOf tgt = false) (hTA : tgt.isPrefixOf a = false)
    (hBT : b.isPrefixOf tgt = false) (hTB : tgt.isPrefixOf b = false)
    (hsa : getFile fs (a ++ rdir ++ [n]) = some sa)
    (hsb : getFile fs (b ++ rdir ++ [n]) = some sb)
    (haroot : (a ++ rdir) ∈ fs.dirs) (hbroot : (b ++ rdir) ∈ fs.dirs)
    (hnotdir : (tgt ++ rdir ++ [n]) ∉ fs.dirs)
    (hne : sa.mtime ≠ sb.mtime) :
    getFile (merge_directories a tgt (merge_directories b tgt fs)) (tgt ++ rdir ++ [n]) =
      getFile (merge_directories b tgt (merge_directories a tgt fs)) (tgt ++ rdir ++ [n])
    ∧ getFile (merge_directories a tgt (merge_directories b tgt fs)) (tgt ++ rdir ++ [n]) =
      some (mergeWinner (getFile fs (tgt ++ rdir ++ [n])) sa sb) := by
  have key : ∀ (x y : FPath) (sx sy : PFile),
      x.isPrefixOf tgt = false → tgt.isPrefixOf x = false →
      y.isPrefixOf tgt = false → tgt.isPrefixOf y = false →
      getFile fs (x ++ rdir ++ [n]) = some sx →
      getFile fs (y ++ rdir ++ [n]) = some sy →
      (x ++ rdir) ∈ fs.dirs → (y ++ rdir) ∈ fs.dirs →
      getFile (merge_directories y tgt (merge_directories x tgt fs)) (tgt ++ rdir ++ [n]) =
        (if copyCond (if copyCond (getFile fs (tgt ++ rdir ++ [n])) sx = true then some sx
              else getFile fs (tgt ++ rdir ++ [n])) sy = true then some sy
         else if copyCond (getFile fs (tgt ++ rdir ++ [n])) sx = true then some sx
              else getFile fs (tgt ++ rdir ++ [n])) := by
    intro x y sx sy hXT hTX hYT hTY hsx hsy hxroot hyroot
    have hchar1 := merge_char fs x tgt rdir n sx hok.1 hok.2.1 hsx hxroot hnotdir
      (hnomk_of_FSok fs x tgt rdir n sx hok hsx) hXT hTX
    have k1 : keysNodup (merge_directories x tgt fs) := merge_keysNodup fs x tgt hok.1
    have k2 : (merge_directories x tgt fs).dirs.Nodup := merge_dirs_nodup fs x tgt hok.2.1
    have k3 : getFile (merge_directories x tgt fs) (y ++ rdir ++ [n]) = some sy := by
      rw [merge_files_frame fs x tgt _ (by
        rw [List.append_assoc]
        exact not_pre_append (rdir ++ [n]) hYT hTY)]
      exact hsy
    have k4 : (y ++ rdir) ∈ (merge_directories x tgt fs).dirs :=
      merge_dirs_grow fs x tgt _ hyroot
    have k5 : (tgt ++ rdir ++ [n]) ∉ (merge_directories x tgt fs).dirs := by
      intro hm
      rcases (merge_dirs_mem fs x tgt _).mp hm with h | ⟨r, hr, hx⟩
      · exact hnotdir h
      · rcases (mem_walkRoots fs x r).mp hr with ⟨hrd, hrpre⟩
        exact hnomk_of_FSok fs x tgt rdir n sx hok hsx r hrd hrpre hx
    have k6 : ∀ r ∈ (merge_directories x tgt fs).dirs, y.isPrefixOf r = true →
        (tgt ++ rdir ++ [n]) ∉ pathPrefixes (tgt ++ r.drop y.length) := by
      intro r hr hypre hmem
      rcases (merge_dirs_mem fs x tgt r).mp hr with h | ⟨rb, _, hx⟩
      · exact hnomk_of_FSok fs y tgt rdir n sy hok hsy r h hypre hmem
      · rcases (mem_pathPrefixes r _).mp hx with ⟨_, hpre⟩
        have hyp2 : y.isPrefixOf (tgt ++ rb.drop x.length) = true := pre_trans hypre hpre
        rcases pre_append_cases _ hyp2 with h | h
        · rw [hYT] at h; exact absurd h (by simp)
        · rw [hTY] at h; exact absurd h (by simp)
    have hchar2 := merge_char (merge_directories x tgt fs) y tgt rdir n sy k1 k2 k3 k4 k5 k6
      hYT hTY
    rw [hchar2, hchar1]
  have e1 := key b a sb sa hBT hTB hAT hTA hsb hsa hbroot haroot
  have e2 := key a b sa sb hAT hTA hBT hTB hsa hsb haroot hbroot
  constructor
  · rw [e1, e2, nested_eval _ sb sa (Ne.symm hne), nested_eval _ sa sb hne,
      winner_comm _ sb sa (Ne.symm hne)]
  · rw [e1, nested_eval _ sb sa (Ne.symm hne), winner_comm _ sb sa (Ne.symm hne)]

/-- C3 counterexample: when the canonical copy is strictly newest
(canonical mtime 5, sources 1 and 2), both merge orders keep the canonical
file — not the source copy with the strictly greater timestamp (mtime 2),
which the claim as stated names as the winner. -/
theorem claim_C3_counterexample :
    getFile (merge_directories ["a"] ["m"] (merge_directories ["b"] ["m"] fsC3x)) ["m", "x"] =
      some ⟨3, 5⟩ ∧
    getFile (merge_directories ["b"] ["m"] (merge_directories ["a"] ["m"] fsC3x)) ["m", "x"] =
      some ⟨3, 5⟩ ∧
    (⟨3, 5⟩ : PFile) ≠ ⟨2, 2⟩ := by
  refine ⟨by decide, by decide, by decide⟩

theorem claim_C3_witness :
    getFile (merge_directories ["a"] ["m"] (merge_directories ["b"] ["m"] fsC3))
        (["m"] ++ [] ++ ["x"]) =
      getFile (merge_directories ["b"] ["m"] (merge_directories ["a"] ["m"] fsC3))
        (["m"] ++ [] ++ ["x"])
    ∧ getFile (merge_directories ["a"] ["m"] (merge_directories ["b"] ["m"] fsC3))
        (["m"] ++ [] ++ ["x"]) =
      some (mergeWinner (getFile fsC3 (["m"] ++ [] ++ ["x"])) ⟨1, 1500⟩ ⟨2, 2500⟩) :=
  claim_C3_merge_commutes fsC3 ["a"] ["b"] ["m"] [] "x" ⟨1, 1500⟩ ⟨2, 2500⟩
    (by unfold FSok keysNodup; decide) (by decide) (by decide) (by decide) (by decide)
    (by decide) (by decide) (by decide) (by decide) (by decide) (by decide)

/-! ## C10: merge from a nonexistent source tree -/

/-- C10: if the source tree path passed to Merge does not exist (so
`os.walk` yields nothing and no directory lies at or under it), the merge
performs no writes at all: files, directories and every timestamp are left
unchanged, and no error is raised (the result is total). -/
theorem claim_C10_missing_source_noop (fs : LocalFS) (src tgt : FPath)
    (_hnx : os_path_exists fs src = false)
    (hnone : ∀ d ∈ fs.dirs, src.isPrefixOf d = false) :
    merge_directories src tgt fs = fs := by
  unfold merge_directories walkRoots
  have hemp : fs.dirs.filter (fun d => src.isPrefixOf d) = [] := by
    apply List.filter_eq_nil_iff.mpr
    intro d hd
    simp [hnone d hd]
  rw [hemp]
  rfl

theorem claim_C10_witness : merge_directories ["nope"] ["merged"] fsC1 = fsC1 :=
  claim_C10_missing_source_noop fsC1 ["nope"] ["merged"] (by decide) (by decide)

/-! ## C5: the Listing Resolver -/

theorem parse_line_short (items : List (String × Int)) (line : String)
    (h : (pySplit line).length < 9) : parse_line items line = items := by
  unfold parse_line
  rw [if_neg (not_le.mpr h)]

/-- C5 (amended): a listing line with fewer than 9 whitespace fields is
dropped without disturbing the rest of the listing; a line with at least 9
fields records its last field, with the timestamp obtained by parsing
fields 5..7 as `"%b %d %H:%M"` — against `strptime`'s default year 1900,
not the current year — and `0` when that parse fails. -/
theorem claim_C5_listing_resolver :
    (∀ (pre post : List String) (line : String), (pySplit line).length < 9 →
      list_directory_with_details (pre ++ line :: post) =
        list_directory_with_details (pre ++ post))
    ∧ (∀ (lines : List String) (line : String), 9 ≤ (pySplit line).length →
      lookupKey (list_directory_with_details (lines ++ [line]))
          ((pySplit line).getLastD "") =
        some (lineTimestamp (pySplit line)))
    ∧ (∀ (parts : List String) (mon day h mi : Nat),
        strptime_fields (parts.getD 5 "") (parts.getD 6 "") (parts.getD 7 "") =
          some (mon, day, h, mi) →
        lineTimestamp parts = mktime_model 1900 mon day h mi)
    ∧ (∀ (parts : List String),
        strptime_fields (parts.getD 5 "") (parts.getD 6 "") (parts.getD 7 "") = none →
        lineTimestamp parts = 0) := by
  refine ⟨?_, ?_, ?_, ?_⟩
  · intro pre post line h
    unfold list_directory_with_details
    rw [show pre ++ line :: post = pre ++ [line] ++ post by simp]
    rw [List.foldl_append, List.foldl_append, List.foldl_append]
    rw [List.foldl_cons, List.foldl_nil]
    rw [parse_line_short _ line h]
  · intro lines line h
    unfold list_directory_with_details
    rw [List.foldl_append, List.foldl_cons, List.foldl_nil]
    unfold parse_line
    rw [if_pos h]
    unfold setKey lookupKey
    exact dictGet_dictSet_self _ _ _
  · intro parts mon day h mi hp
    unfold lineTimestamp
    rw [hp]
  · intro parts hp
    unfold lineTimestamp
    rw [hp]

/-- C5 counterexample: a well-formed LIST line is recorded with the 1900
epoch value (a negative number), not the epoch value of any current year —
the script never supplies a year to `strptime`, so `tm_year` stays 1900. -/
theorem claim_C5_counterexample :
    lookupKey (list_directory_with_details ["-rw-r--r-- 1 u g 10 Oct 12 13:37 data.bin"])
        "data.bin" = some (mktime_model 1900 10 12 13 37)
    ∧ mktime_model 1900 10 12 13 37 ≠ mktime_model 2026 10 12 13 37
    ∧ mktime_model 1900 10 12 13 37 < 0
    ∧ 0 < mktime_model 2026 10 12 13 37 := by
  refine ⟨by decide, by decide, by decide, by decide⟩

theorem claim_C5_witness :
    list_directory_with_details
        (["-rw-r--r-- 1 u g 10 Oct 12 13:37 data.bin"] ++ "short line" :: []) =
      list_directory_with_details (["-rw-r--r-- 1 u g 10 Oct 12 13:37 data.bin"] ++ [])
    ∧ lookupKey (list_directory_with_details ([] ++ ["-rw-r--r-- 1 u g 10 Oct 12 2024 old.bin"]))
        ((pySplit "-rw-r--r-- 1 u g 10 Oct 12 2024 old.bin").getLastD "") =
      some (lineTimestamp (pySplit "-rw-r--r-- 1 u g 10 Oct 12 2024 old.bin"))
    ∧ lineTimestamp (pySplit "-rw-r--r-- 1 u g 10 Oct 12 13:37 data.bin") =
      mktime_model 1900 10 12 13 37
    ∧ lineTimestamp (pySplit "-rw-r--r-- 1 u g 10 Oct 12 2024 old.bin") = 0 :=
  ⟨claim_C5_listing_resolver.1 ["-rw-r--r-- 1 u g 10 Oct 12 13:37 data.bin"] [] "short line"
      (by decide),
   claim_C5_listing_resolver.2.1 [] "-rw-r--r-- 1 u g 10 Oct 12 2024 old.bin" (by decide),
   claim_C5_listing_resolver.2.2.1 (pySplit "-rw-r--r-- 1 u g 10 Oct 12 13:37 data.bin")
      10 12 13 37 (by decide),
   claim_C5_listing_resolver.2.2.2 (pySplit "-rw-r--r-- 1 u g 10 Oct 12 2024 old.bin")
      (by decide)⟩

/-! ## C2, C4, C6, C7, C8: the Tree Transfer Engine as written -/

/-- C2 (code bug): Pull never reaches its skip-vs-fetch comparison.  On a
remote directory with one file whose mtime equals the canonical copy's —
the case the claim says is skipped — `download_directory` raises
`TypeError` (the one-argument call `is_directory(item)` while computing the
progress total), transferring nothing and deciding nothing: the local
files are untouched at the moment the exception escapes. -/
theorem claim_C2_pull_skip_rule_crashes :
    runErr (download_directory 5 "save" ["tmp1"] ["merged"] false false false none stC2) =
      some (.typeError "is_directory() missing 1 required positional argument: item")
    ∧ (runErrState (download_directory 5 "save" ["tmp1"] ["merged"] false false false none stC2)).map
        (fun s => s.lfs.files) = some [(["merged", "f.bin"], ⟨7, 100⟩)] := by
  exact ⟨rfl, rfl⟩

/-- C4 (code bug): the probe `is_directory(ftp, item)` itself classifies
correctly and restores the working directory (shown on a directory entry
and on a file entry), but Pull never calls it with the session: its
one-argument calls raise `TypeError` before any classification, so Pull
recurses into nothing. -/
theorem claim_C4_probe_ok_but_pull_crashes :
    is_directory ⟨remC8, ["save"]⟩ "sub" = (true, ⟨remC8, ["save"]⟩)
    ∧ is_directory ⟨remC8, ["save"]⟩ "f1" = (false, ⟨remC8, ["save"]⟩)
    ∧ is_directory ⟨remC8, ["save"]⟩ "missing" = (false, ⟨remC8, ["save"]⟩)
    ∧ runErr (download_directory 5 "save" ["tmp1"] ["merged"] false false false none stC8) =
      some (.typeError "is_directory() missing 1 required positional argument: item") := by
  exact ⟨rfl, rfl, rfl, rfl⟩

/-- C6 (code bug): Push crashes with `AttributeError` whenever the file
exists in the remote listing (`remote_files.get(item, {})` is a float, and
`.get` is called on it) — including the equal-timestamps case the claim
says is skipped; the remote file is untouched when the exception escapes.
When the file is absent remotely, the upload does happen and the remote
mtime is then set to the local file's (100), not to the upload wall clock
(999). -/
theorem claim_C6_push_compare_crashes :
    runErr (upload_directory 5 ["merged"] "save" false false false stC2) =
      some (.attributeError "float object has no attribute get")
    ∧ (runErrState (upload_directory 5 ["merged"] "save" false false false stC2)).map
        (fun s => findEntry s.sess.root ["save", "f.bin"]) = some (some (.rfile 100 7))
    ∧ (runOkState (upload_directory 5 ["merged"] "save" false false false stC6b)).map
        (fun s => findEntry s.sess.root ["save", "f.bin"]) = some (some (.rfile 100 7)) := by
  exact ⟨rfl, rfl, rfl⟩

/-- C7 (code bug): the Push walk never ascends.  After recursing into
subdirectory `sub`, the session's cwd stays `/save/sub`; the parent's
remaining file `f` is then stored into `save/sub/f` instead of `save/f`,
and the walk ends with cwd `/save/sub`, not where it started. -/
theorem claim_C7_push_never_ascends :
    (runOkState (upload_directory 5 ["merged"] "save" false false false stC7)).map
        (fun s => s.sess.cwd) = some ["save", "sub"]
    ∧ (runOkState (upload_directory 5 ["merged"] "save" false false false stC7)).map
        (fun s => findEntry s.sess.root ["save", "sub", "f"]) = some (some (.rfile 60 9))
    ∧ (runOkState (upload_directory 5 ["merged"] "save" false false false stC7)).map
        (fun s => findEntry s.sess.root ["save", "f"]) = some none := by
  exact ⟨rfl, rfl, rfl⟩

/-- C8 (code bug): the recursive pre-order pass `count_files` does count
the whole tree (3 files here) and restores the cwd — but Pull never calls
it: `download_directory` computes its total from the top-level listing
alone via the broken one-argument `is_directory` call, raising `TypeError`
before any progress bar exists. -/
theorem claim_C8_total_is_not_tree_size :
    runOkVal (count_files 5 "save" stC8) = some 3
    ∧ (runOkState (count_files 5 "save" stC8)).map (fun s => s.sess.cwd) = some []
    ∧ runErr (download_directory 5 "save" ["tmp1"] ["merged"] false false false none stC8) =
      some (.typeError "is_directory() missing 1 required positional argument: item")
    ∧ (runErrState (download_directory 5 "save" ["tmp1"] ["merged"] false false false none stC8)).map
        (fun s => s.pbar) = some none := by
  exact ⟨rfl, rfl, rfl, rfl⟩

/-! ## C9: staging-tree cleanup -/

theorem bindM_ok {α β : Type} (m : M α) (f : α → M β) (s : S) (b : β) (s' : S)
    (h : (m >>= f) s = .ok (b, s')) :
    ∃ a s1, m s = .ok (a, s1) ∧ f a s1 = .ok (b, s') := by
  have h' : (match m s with
      | .ok (a, s1) => f a s1
      | .error es => (.error es : Except (PyErr × S) (β × S))) = .ok (b, s') := h
  cases hm : m s with
  | ok as1 =>
    rw [hm] at h'
    exact ⟨as1.1, as1.2, rfl, h'⟩
  | error es =>
    rw [hm] at h'
    exact absurd h' (by simp)

theorem find?_filter_rmtree (p q : FPath) (hpq : p.isPrefixOf q = false) :
    ∀ (L : List (FPath × PFile)),
      (L.filter (fun e => ¬ p.isPrefixOf e.1)).find? (fun e => decide (e.1 = q)) =
        L.find? (fun e => decide (e.1 = q))
  | [] => rfl
  | e :: L => by
    by_cases hk : e.1 = q
    · have hkeep : (¬ p.isPrefixOf e.1) = True := by
        rw [hk, hpq]
        simp
    -- keep the entry and both finds hit it
      rw [List.filter_cons]
      rw [show (decide ¬ p.isPrefixOf e.1 = true) = true by rw [hk, hpq]; simp]
      simp only [List.find?]
      rw [show (decide (e.1 = q)) = true by simp [hk]]
    · rw [List.filter_cons]
      cases hkeep : (decide (¬ p.isPrefixOf e.1 = true)) with
      | true =>
        simp only [List.find?]
        rw [show (decide (e.1 = q)) = false by simp [hk]]
        exact find?_filter_rmtree p q hpq L
      | false =>
        simp only [List.find?]
        rw [show (decide (e.1 = q)) = false by simp [hk]]
        exact find?_filter_rmtree p q hpq L

theorem bindM_step {α β : Type} (m : M α) (f : α → M β) (s s1 : S) (a : α)
    (h : m s = .ok (a, s1)) : (m >>= f) s = f a s1 := by
  show (match m s with
    | .ok (a, s1) => f a s1
    | .error es => (.error es : Except (PyErr × S) (β × S))) = f a s1
  rw [h]

theorem c9_phase_download :
    download_directory 6 vita_remote_dir temp_dir_1 ["merged"] false false false none stC9 =
      .ok ((), stC9dl) := rfl

theorem c9_phase_merge : mergeM temp_dir_1 ["merged"] stC9dl = .ok ((), stC9dl) := rfl

theorem c9_phase_upload :
    upload_directory 6 ["merged"] vita_remote_dir false false false stC9dl =
      .ok ((), stC9up) := rfl

theorem c9_phase_rm1 : rmtreeM temp_dir_1 stC9up = .ok ((), c9final) := rfl

theorem c9_phase_rm2 : rmtreeM temp_dir_2 c9final = .ok ((), c9final) := rfl

/-- The one-endpoint run on `stC9` completes, phase by phase. -/
theorem c9_run_eq : main_sync 6 ["merged"] false false stC9 = .ok ((), c9final) := by
  have e0 : main_sync 6 ["merged"] false false stC9 =
      (mergeM temp_dir_1 ["merged"] >>= fun _ =>
        upload_directory 6 ["merged"] vita_remote_dir false false false >>= fun _ =>
        rmtreeM temp_dir_1 >>= fun _ =>
        rmtreeM temp_dir_2) stC9dl := by
    unfold main_sync
    exact bindM_step _ _ _ _ _ c9_phase_download
  have e1 : (mergeM temp_dir_1 ["merged"] >>= fun _ =>
        upload_directory 6 ["merged"] vita_remote_dir false false false >>= fun _ =>
        rmtreeM temp_dir_1 >>= fun _ =>
        rmtreeM temp_dir_2) stC9dl =
      (upload_directory 6 ["merged"] vita_remote_dir false false false >>= fun _ =>
        rmtreeM temp_dir_1 >>= fun _ =>
        rmtreeM temp_dir_2) stC9dl :=
    bindM_step _ _ _ _ _ c9_phase_merge
  have e2 : (upload_directory 6 ["merged"] vita_remote_dir false false false >>= fun _ =>
        rmtreeM temp_dir_1 >>= fun _ =>
        rmtreeM temp_dir_2) stC9dl =
      (rmtreeM temp_dir_1 >>= fun _ => rmtreeM temp_dir_2) stC9up :=
    bindM_step _ _ _ _ _ c9_phase_upload
  have e3 : (rmtreeM temp_dir_1 >>= fun _ => rmtreeM temp_dir_2) stC9up =
      rmtreeM temp_dir_2 c9final :=
    bindM_step _ _ _ _ _ c9_phase_rm1
  rw [e0, e1, e2, e3, c9_phase_rm2]

/-- C9 (amended): the two staging roots are deleted at the end of a run
that completes — the deletions are the final two steps, so a normal return
guarantees no file or directory under either staging root survives; the
recursive delete only ever removes paths under its argument, so the
canonical tree is never deleted; and a completed run on the concrete
one-endpoint scenario leaves the canonical file intact with its timestamp.
(A run that fails partway does not delete the staging trees — see the
counterexample.) -/
theorem claim_C9_staging_cleanup :
    (∀ (fuel : Nat) (merged : FPath) (vb pg : Bool) (s : S) (u : Unit) (s' : S),
      main_sync fuel merged vb pg s = .ok (u, s') →
      (∀ e ∈ s'.lfs.files,
        temp_dir_1.isPrefixOf e.1 = false ∧ temp_dir_2.isPrefixOf e.1 = false)
      ∧ (∀ d ∈ s'.lfs.dirs,
        temp_dir_1.isPrefixOf d = false ∧ temp_dir_2.isPrefixOf d = false))
    ∧ (∀ (fs : LocalFS) (p q : FPath), p.isPrefixOf q = false →
      getFile (shutil_rmtree fs p) q = getFile fs q)
    ∧ (runOkState (main_sync 6 ["merged"] false false stC9)).map
        (fun s => (getFile s.lfs ["merged", "c"], s.lfs.dirs)) =
      some (some ⟨1, 40⟩, [["merged"], ["tmp"]]) := by
  refine ⟨?_, ?_, by rw [c9_run_eq]; rfl⟩
  · intro fuel merged vb pg s u s' h
    unfold main_sync at h
    rcases bindM_ok _ _ _ _ _ h with ⟨_, s1, _, h⟩
    rcases bindM_ok _ _ _ _ _ h with ⟨_, s2, _, h⟩
    rcases bindM_ok _ _ _ _ _ h with ⟨_, s3, _, h⟩
    rcases bindM_ok _ _ _ _ _ h with ⟨_, s4, h4, h5⟩
    have e4 : s4 = { s3 with lfs := shutil_rmtree s3.lfs temp_dir_1 } := by
      have h4' : (Except.ok ((), { s3 with lfs := shutil_rmtree s3.lfs temp_dir_1 }) :
          Except (PyErr × S) (Unit × S)) = .ok (_, s4) := h4
      simpa using h4'.symm
    have e5 : s' = { s4 with lfs := shutil_rmtree s4.lfs temp_dir_2 } := by
      have h5' : (Except.ok ((), { s4 with lfs := shutil_rmtree s4.lfs temp_dir_2 }) :
          Except (PyErr × S) (Unit × S)) = .ok (u, s') := h5
      simpa using h5'.symm
    subst e4
    subst e5
    constructor
    · intro e he
      unfold shutil_rmtree at he
      simp only [List.mem_filter, decide_eq_true_eq] at he
      rcases he with ⟨⟨_, h1⟩, h2⟩
      constructor
      · exact Bool.eq_false_iff.mpr h1
      · exact Bool.eq_false_iff.mpr h2
    · intro d hd
      unfold shutil_rmtree at hd
      simp only [List.mem_filter, decide_eq_true_eq] at hd
      rcases hd with ⟨⟨_, h1⟩, h2⟩
      constructor
      · exact Bool.eq_false_iff.mpr h1
      · exact Bool.eq_false_iff.mpr h2
  · intro fs p q hpq
    unfold shutil_rmtree getFile dictGet
    rw [find?_filter_rmtree p q hpq]

/-- C9 counterexample: a run that fails partway (the remote savedata holds
one file, so Pull raises `TypeError`) does not delete the staging tree it
created: `/tmp/ftp_sync_server1` is still present in the state the
exception escaped with, because the `rmtree` calls sit after the phases
with no `finally`. -/
theorem claim_C9_counterexample :
    runErr (main_sync 6 ["merged"] false false stC9f) =
      some (.typeError "is_directory() missing 1 required positional argument: item")
    ∧ (runErrState (main_sync 6 ["merged"] false false stC9f)).map
        (fun s => s.lfs.dirs.contains temp_dir_1) = some true := by
  exact ⟨rfl, rfl⟩

theorem claim_C9_witness :
    c9final.lfs.dirs.contains temp_dir_1 = false
    ∧ c9final.lfs.dirs.contains temp_dir_2 = false := by
  have hrun : main_sync 6 ["merged"] false false stC9 = .ok ((), c9final) := c9_run_eq
  have hall := (claim_C9_staging_cleanup.1 6 ["merged"] false false stC9 () c9final hrun).2
  constructor
  · cases hc : c9final.lfs.dirs.contains temp_dir_1 with
    | false => rfl
    | true =>
      have hmem : temp_dir_1 ∈ c9final.lfs.dirs := by simpa using hc
      have := (hall temp_dir_1 hmem).1
      rw [pre_refl temp_dir_1] at this
      exact absurd this (by simp)
  · cases hc : c9final.lfs.dirs.contains temp_dir_2 with
    | false => rfl
    | true =>
      have hmem : temp_dir_2 ∈ c9final.lfs.dirs := by simpa using hc
      have := (hall temp_dir_2 hmem).2
      rw [pre_refl temp_dir_2] at this
      exact absurd this (by simp)
